import Mathlib

/-!
Verification of the git pack/index reading core of sync-git: delta
application, the variable-length integer codecs, pack-index lookup, pack
object reading, and the incremental inflater wrapper.

Modelling conventions.  JS Buffers are modelled as lists of byte values
(List Nat).  JS undefined, as produced by an out-of-bounds indexed read,
is modelled with Option; JS exceptions with Except String.  JS numbers
are modelled as Nat / Int without the 32-bit wrap of JS bitwise
operators (the pack format keeps all sizes and offsets below 2^31, where
the two agree).  A NaN position (arising from arithmetic on undefined)
is modelled as Option.none.  Loops whose termination depends on the
input data take an explicit fuel argument; fuel exhaustion returns none
(for loops the source can genuinely run forever on) or an error (for
recursion that would overflow the JS call stack).
-/

namespace SyncGit

/-- A byte buffer: a JS Buffer as a list of byte values. -/
abbrev Buf := List Nat

/-- The bytes returned by a bounds-clamped slice or read of n bytes at
position off: JS subarray / readSync both clamp to the available range. -/
def extract (l : Buf) (off n : Nat) : Buf := (l.drop off).take n

/-! ## The delta module: Cursor, varints, delta operations -/

/-- The delta module's Cursor: a buffer with a read position.  pos = none
models a NaN position, which arises in JS once undefined is added to the
position. -/
structure Cursor where
  buffer : Buf
  pos : Option Nat
  deriving Repr, DecidableEq

/-- Cursor.readByte: return buffer[position] and advance the position by
one.  An out-of-bounds indexed read yields undefined (none); indexing at
a NaN position also yields undefined and NaN + 1 stays NaN. -/
def Cursor.readByte (c : Cursor) : Option Nat × Cursor :=
  match c.pos with
  | none => (none, c)
  | some p =>
    (if p < c.buffer.length then some (c.buffer.getD p 0) else none,
     { c with pos := some (p + 1) })

/-- Cursor.slice(offset): buffer.subarray(position, position + offset),
advancing the position by offset.  When offset is undefined (none),
position + offset is NaN, subarray clamps to an empty slice, and the
position becomes NaN. -/
def Cursor.slice (c : Cursor) (offset : Option Nat) : Buf × Cursor :=
  match c.pos, offset with
  | some p, some k => (extract c.buffer p k, { c with pos := some (p + k) })
  | some _, none => ([], { c with pos := none })
  | none, _ => ([], c)

/-- The fuel-indexed loop of readVariableLengthInt.  Each iteration does
result |= (byte AND 0x7f) << shift and continues while the byte's high
bit is set; a byte read as undefined behaves as 0 in the JS bitwise
operators (ToInt32(undefined) = 0), so the loop stops at the buffer end.
The loop strictly advances an in-bounds position and stops as soon as
the position leaves the buffer, so the fuel supplied by the wrapper
below always suffices. -/
def readVariableLengthIntLoop : Nat → Cursor → Nat → Nat → Nat × Cursor
  | 0, c, result, _ => (result, c)
  | fuel + 1, c, result, shift =>
    let p := c.readByte
    let b := p.1.getD 0
    if b &&& 128 ≠ 0 then
      readVariableLengthIntLoop fuel p.2 (result ||| ((b &&& 127) <<< shift)) (shift + 7)
    else (result ||| ((b &&& 127) <<< shift), p.2)

/-- readVariableLengthInt: little-endian base-128 varint; low 7 bits of
each byte at increasing 7-bit shifts, the high bit marking continuation. -/
def readVariableLengthInt (c : Cursor) : Nat × Cursor :=
  readVariableLengthIntLoop (c.buffer.length + 2) c 0 0

/-- The loop of readCompactNumber: for each byte position, if the low bit
of the flag mask is set, consume one byte and OR it in at the current
8-bit shift; the shift advances whether or not a byte was consumed.  A
byte read as undefined contributes 0. -/
def readCompactNumberLoop : Nat → Cursor → Nat → Nat → Nat → Nat × Cursor
  | 0, c, _, acc, _ => (acc, c)
  | maxBytes + 1, c, flagMask, acc, shift =>
    if flagMask &&& 1 ≠ 0 then
      let p := c.readByte
      readCompactNumberLoop maxBytes p.2 (flagMask >>> 1) (acc ||| ((p.1.getD 0) <<< shift)) (shift + 8)
    else readCompactNumberLoop maxBytes c (flagMask >>> 1) acc (shift + 8)

/-- readCompactNumber(cursor, flagMask, maxBytes). -/
def readCompactNumber (c : Cursor) (flagMask maxBytes : Nat) : Nat × Cursor :=
  readCompactNumberLoop maxBytes c flagMask 0 0

/-- readDeltaOperation: read one opcode byte; high bit set means a copy
instruction (4-bit offset presence mask, 3-bit size presence mask, a
decoded size of 0 meaning 65536, output = source.subarray(offset,
offset + size)); high bit clear means an insert of the opcode's low 7
bits' worth of delta bytes.  An opcode read as undefined behaves as 0 in
the bit tests, taking the insert branch with an undefined slice length. -/
def readDeltaOperation (c : Cursor) (source : Buf) : Buf × Cursor :=
  let p := c.readByte
  let opCode := p.1.getD 0
  if opCode &&& 128 ≠ 0 then
    let q := readCompactNumber p.2 (opCode &&& 15) 4
    let s := readCompactNumber q.2 ((opCode &&& 112) >>> 4) 3
    let size := if s.1 = 0 then 65536 else s.1
    (extract source q.1 size, s.2)
  else p.2.slice p.1

/-- Cursor.copyFrom's write into the target buffer: source.copy(target,
pos) copies min(source length, target length - pos) bytes into the
target at position pos and reports the count. -/
def listCopy (target : Buf) (src : Buf) (pos : Nat) : Buf × Nat :=
  let n := min src.length (target.length - pos)
  (target.take pos ++ src.take n ++ target.drop (pos + n), n)

/-- The fill loop of applyOffsetDelta: while (targetCursor.copyFrom
(readDeltaOperation(readCursor, source))); one iteration reads an
operation, copies it at the current position (clamped to the target's
capacity) and continues while the target is not yet full.  Fuel
exhaustion returns none; the source loop runs forever exactly when no
finite fuel suffices. -/
def fillLoop (source : Buf) : Nat → Cursor → Buf → Nat → Option Buf
  | 0, _, _, _ => none
  | fuel + 1, c, buf, pos =>
    let p := readDeltaOperation c source
    let q := listCopy buf p.1 pos
    if pos + q.2 < buf.length then fillLoop source fuel p.2 q.1 (pos + q.2)
    else some q.1

/-- The declared target size of a delta: the second varint of its
header (the first, the declared base size, is read and discarded). -/
def deltaTargetSize (delta : Buf) : Nat :=
  (readVariableLengthInt (readVariableLengthInt ⟨delta, some 0⟩).2).1

/-- The cursor state right after a delta's two header varints. -/
def deltaHeaderCursor (delta : Buf) : Cursor :=
  (readVariableLengthInt (readVariableLengthInt ⟨delta, some 0⟩).2).2

/-- applyOffsetDelta(delta, source): skip the base size, read the target
size, read the first operation (returning it directly when it alone has
exactly the target size), otherwise allocate the target buffer, copy the
first operation in (the boolean result of that first copyFrom is
discarded by the source) and run the fill loop.  Buffer.allocUnsafe
leaves the buffer contents unspecified; zeros stand in here, and a
terminating run writes every target byte, so the choice never reaches a
returned buffer.  All reads are pure, so reading the header through
deltaTargetSize / deltaHeaderCursor replays the source's sequential
cursor reads exactly. -/
def applyOffsetDelta (fuel : Nat) (delta source : Buf) : Option Buf :=
  let targetSize := deltaTargetSize delta
  let p := readDeltaOperation (deltaHeaderCursor delta) source
  if p.1.length = targetSize then some p.1
  else
    let q := listCopy (List.replicate targetSize 0) p.1 0
    fillLoop source fuel p.2 q.1 q.2

/-- Modelled from the spec's general path (section 4.5): allocate a
T-byte output buffer and copy every instruction's output into it in
order, with no early return of the first instruction's output.  Used to
compare the source's early-return optimization against the spec's
description of the general path. -/
def applyOffsetDeltaGeneral (fuel : Nat) (delta source : Buf) : Option Buf :=
  let targetSize := deltaTargetSize delta
  let p := readDeltaOperation (deltaHeaderCursor delta) source
  let q := listCopy (List.replicate targetSize 0) p.1 0
  fillLoop source fuel p.2 q.1 q.2

example : applyOffsetDelta 1 [0, 1, 2, 97, 98] [] = some [97] := by decide

example : applyOffsetDelta 0 [0, 2, 1, 97, 1, 98] [] = none := by decide

example : applyOffsetDelta 1 [0, 2, 1, 97, 1, 98] [] = some [97, 98] := by decide

example : applyOffsetDelta 0 [5, 2, 129, 1] [10, 20, 30] = some [20, 30] := by decide

/-! ## Basic lemmas about the delta module -/

theorem readByte_buffer (c : Cursor) : (c.readByte).2.buffer = c.buffer := by
  unfold Cursor.readByte
  cases c.pos <;> simp

theorem slice_buffer (c : Cursor) (k : Option Nat) : (c.slice k).2.buffer = c.buffer := by
  unfold Cursor.slice
  cases c.pos <;> cases k <;> simp

theorem readCompactNumberLoop_buffer :
    ∀ (maxBytes : Nat) (c : Cursor) (flagMask acc shift : Nat),
      ((readCompactNumberLoop maxBytes c flagMask acc shift).2).buffer = c.buffer := by
  intro maxBytes
  induction maxBytes with
  | zero => intro c flagMask acc shift; simp [readCompactNumberLoop]
  | succ n ih =>
    intro c flagMask acc shift
    simp only [readCompactNumberLoop]
    split
    · rw [ih, readByte_buffer]
    · rw [ih]

theorem readDeltaOperation_buffer (c : Cursor) (source : Buf) :
    ((readDeltaOperation c source).2).buffer = c.buffer := by
  unfold readDeltaOperation readCompactNumber
  dsimp only
  split
  · rw [readCompactNumberLoop_buffer, readCompactNumberLoop_buffer, readByte_buffer]
  · rw [slice_buffer, readByte_buffer]

theorem listCopy_length (target src : Buf) (pos : Nat) :
    ((listCopy target src pos).1).length = target.length := by
  simp only [listCopy, List.length_append, List.length_take, List.length_drop]
  omega

theorem fillLoop_length (source : Buf) :
    ∀ (fuel : Nat) (c : Cursor) (buf : Buf) (pos : Nat) (out : Buf),
      fillLoop source fuel c buf pos = some out → out.length = buf.length := by
  intro fuel
  induction fuel with
  | zero => intro c buf pos out h; simp [fillLoop] at h
  | succ n ih =>
    intro c buf pos out h
    simp only [fillLoop] at h
    split at h
    · have := ih _ _ _ _ h
      rwa [listCopy_length] at this
    · cases h
      rw [listCopy_length]

/-! ## C1: what applyOffsetDelta actually does with mismatched output -/

/-- C1 (amended): applyOffsetDelta raises no MalformedDelta error at all.
Whenever it returns a buffer, that buffer has exactly the declared
target length: an instruction whose output would run beyond the target
size is silently clipped at the target's end (and a stream that runs out
early never returns, see C8). -/
theorem applyOffsetDelta_returns_target_length :
    ∀ (fuel : Nat) (delta source out : Buf),
      applyOffsetDelta fuel delta source = some out →
      out.length = deltaTargetSize delta := by
  intro fuel delta source out h
  unfold applyOffsetDelta at h
  dsimp only at h
  split at h
  · rename_i hcond
    cases h
    exact hcond
  · have := fillLoop_length source fuel _ _ _ _ h
    rwa [listCopy_length, List.length_replicate] at this

/-- C1 witness for the amended theorem: a delta whose single copy
instruction produces exactly the declared two target bytes. -/
theorem applyOffsetDelta_returns_target_length_witness :
    ([20, 30] : Buf).length = deltaTargetSize [5, 2, 129, 1] :=
  applyOffsetDelta_returns_target_length 0 [5, 2, 129, 1] [10, 20, 30] [20, 30] (by decide)

/-- C1 counterexample: a delta declaring target size 1 whose single
insert instruction produces 2 bytes.  The claim says applying such a
delta fails with a MalformedDelta format-violation error rather than
returning a buffer; the code instead clips the copy at the target's end
and returns a 1-byte buffer. -/
theorem applyOffsetDelta_overlong_returns_buffer :
    deltaTargetSize [0, 1, 2, 97, 98] = 1 ∧
    ((readDeltaOperation (deltaHeaderCursor [0, 1, 2, 97, 98]) []).1).length = 2 ∧
    applyOffsetDelta 1 [0, 1, 2, 97, 98] [] = some [97] := by
  decide

/-! ## C5: the size-zero special case of copy instructions -/

/-- C5: a copy instruction whose decoded size field is exactly 0 uses a
copy size of 65536 bytes: the operation's output is
source.subarray(offset, offset + 65536), never a zero-length copy. -/
theorem readDeltaOperation_size_zero :
    ∀ (delta source : Buf) (p offset size₀ : Nat) (c₂ c₃ : Cursor),
      p < delta.length →
      delta.getD p 0 &&& 128 ≠ 0 →
      readCompactNumber ⟨delta, some (p + 1)⟩ (delta.getD p 0 &&& 15) 4 = (offset, c₂) →
      readCompactNumber c₂ ((delta.getD p 0 &&& 112) >>> 4) 3 = (size₀, c₃) →
      size₀ = 0 →
      readDeltaOperation ⟨delta, some p⟩ source = (extract source offset 65536, c₃) := by
  intro delta source p offset size₀ c₂ c₃ hp hcopy hoff hsize hzero
  subst hzero
  have hrb : (⟨delta, some p⟩ : Cursor).readByte =
      (some (delta.getD p 0), ⟨delta, some (p + 1)⟩) := by
    simp [Cursor.readByte, hp]
  unfold readDeltaOperation
  rw [hrb]
  simp only [Option.getD_some]
  rw [if_pos hcopy, hoff]
  dsimp only
  rw [hsize]
  rfl

/-- C5 witness: opcode 0x80 (copy, no offset bytes, no size bytes)
decodes offset 0 and size field 0, and copies 65536 bytes' worth of the
source. -/
theorem readDeltaOperation_size_zero_witness :
    readDeltaOperation ⟨[128], some 0⟩ [5, 6] = (extract [5, 6] 0 65536, ⟨[128], some 1⟩) :=
  readDeltaOperation_size_zero [128] [5, 6] 0 0 0 ⟨[128], some 1⟩ ⟨[128], some 1⟩
    (by decide) (by decide) (by decide) (by decide) rfl

/-! ## C8: termination of the fill loop -/

/-- A cursor that has run off the end of its buffer (or whose position
is already NaN).  From such a state every further operation read yields
an empty output and another exhausted cursor. -/
def exhausted (c : Cursor) : Bool :=
  match c.pos with
  | none => true
  | some p => decide (c.buffer.length ≤ p)

theorem exhausted_step (c : Cursor) (source : Buf) (h : exhausted c = true) :
    (readDeltaOperation c source).1 = [] ∧ exhausted (readDeltaOperation c source).2 = true := by
  unfold exhausted at h
  unfold readDeltaOperation
  match hp : c.pos with
  | none =>
    simp only [Cursor.readByte, hp]
    simp [Cursor.slice, hp, exhausted]
  | some p =>
    rw [hp] at h
    have hge : ¬ p < c.buffer.length := by
      simp only [decide_eq_true_eq] at h
      omega
    simp only [Cursor.readByte, hp, if_neg hge]
    simp [Cursor.slice, exhausted]

/-- The fill loop makes no progress from an exhausted read cursor while
the target is not yet full: it returns none (runs forever) at every
fuel. -/
theorem fillLoop_exhausted (source : Buf) :
    ∀ (fuel : Nat) (c : Cursor) (buf : Buf) (pos : Nat),
      exhausted c = true → pos < buf.length →
      fillLoop source fuel c buf pos = none := by
  intro fuel
  induction fuel with
  | zero => intro c buf pos _ _; simp [fillLoop]
  | succ n ih =>
    intro c buf pos hex hpos
    obtain ⟨hempty, hex'⟩ := exhausted_step c source hex
    simp only [fillLoop, hempty, listCopy, List.length_nil, List.take_nil]
    have hmin : min 0 (buf.length - pos) = 0 := by omega
    rw [hmin]
    simp only [List.append_nil, Nat.add_zero, List.take_append_drop, if_pos hpos]
    exact ih _ _ _ hex' hpos

/-- The precondition of C8: starting at read position rpos with
produced output bytes so far, the instruction stream decodes, entirely
within the delta buffer, instructions whose combined output reaches the
declared target size. -/
inductive ProducesTarget (delta source : Buf) (T : Nat) : Nat → Nat → Prop where
  | done (rpos produced : Nat) (h : T ≤ produced) : ProducesTarget delta source T rpos produced
  | step (rpos produced : Nat) (op : Buf) (c' : Cursor) (rpos' : Nat)
      (hlt : produced < T)
      (hop : readDeltaOperation ⟨delta, some rpos⟩ source = (op, c'))
      (hpos : c'.pos = some rpos')
      (hin : rpos' ≤ delta.length)
      (hrest : ProducesTarget delta source T rpos' (produced + op.length)) :
      ProducesTarget delta source T rpos produced

theorem fillLoop_terminates (delta source : Buf) (T : Nat) :
    ∀ (rpos produced : Nat), ProducesTarget delta source T rpos produced →
      ∀ (buf : Buf), buf.length = T → produced < T →
      ∃ fuel out, fillLoop source fuel ⟨delta, some rpos⟩ buf produced = some out := by
  intro rpos produced h
  induction h with
  | done rpos produced hTp =>
    intro buf hlen hlt
    omega
  | step rpos produced op c' rpos' hlt hop hpos hin hrest ih =>
    intro buf hlen hlt'
    have hc' : c' = ⟨delta, some rpos'⟩ := by
      have hb : c'.buffer = delta := by
        have := readDeltaOperation_buffer ⟨delta, some rpos⟩ source
        rw [hop] at this
        exact this
      cases c'
      simp_all
    have hq2 : (listCopy buf op produced).2 = min op.length (buf.length - produced) := rfl
    by_cases hfull : produced + (listCopy buf op produced).2 < buf.length
    · have hn : (listCopy buf op produced).2 = op.length := by
        rw [hq2] at hfull ⊢
        omega
      have hlt'' : produced + op.length < T := by
        rw [hq2] at hfull
        omega
      obtain ⟨fuel, out, hfo⟩ := ih ((listCopy buf op produced).1)
        (by rw [listCopy_length, hlen]) hlt''
      refine ⟨fuel + 1, out, ?_⟩
      simp only [fillLoop, hop]
      rw [if_pos (by rw [hn]; omega)]
      rw [hn, hc']
      exact hfo
    · refine ⟨1, (listCopy buf op produced).1, ?_⟩
      simp only [fillLoop, hop]
      rw [if_neg hfull]

/-- One iteration of the fill loop on an already-full target copies
nothing and stops. -/
theorem fillLoop_full (source : Buf) (c : Cursor) (buf : Buf) (pos : Nat)
    (h : buf.length ≤ pos) : ∃ out, fillLoop source 1 c buf pos = some out := by
  simp only [fillLoop]
  rw [if_neg (by omega)]
  exact ⟨_, rfl⟩

theorem deltaHeaderCursor_buffer (delta : Buf) : (deltaHeaderCursor delta).buffer = delta := by
  unfold deltaHeaderCursor readVariableLengthInt
  have h : ∀ (fuel : Nat) (c : Cursor) (result shift : Nat),
      ((readVariableLengthIntLoop fuel c result shift).2).buffer = c.buffer := by
    intro fuel
    induction fuel with
    | zero => intro c result shift; simp [readVariableLengthIntLoop]
    | succ n ih =>
      intro c result shift
      simp only [readVariableLengthIntLoop]
      split
      · rw [ih, readByte_buffer]
      · rw [readByte_buffer]
  rw [h, h]

/-- C8: applyOffsetDelta terminates whenever the decoded instruction
sequence produces at least the declared target size of output before the
delta buffer is exhausted (first conjunct), and the precondition is
necessary: once the delta buffer has run out with the target not yet
full, the fill loop never terminates at any fuel (second conjunct). -/
theorem applyOffsetDelta_terminates_iff_produces :
    (∀ (delta source : Buf) (rpos₀ : Nat),
      (deltaHeaderCursor delta).pos = some rpos₀ →
      ProducesTarget delta source (deltaTargetSize delta) rpos₀ 0 →
      ∃ fuel out, applyOffsetDelta fuel delta source = some out) ∧
    (∀ (source : Buf) (c : Cursor) (buf : Buf) (pos : Nat),
      exhausted c = true → pos < buf.length →
      ∀ fuel, fillLoop source fuel c buf pos = none) := by
  constructor
  · intro delta source rpos₀ hpos hprod
    have hdr : deltaHeaderCursor delta = ⟨delta, some rpos₀⟩ := by
      have hb := deltaHeaderCursor_buffer delta
      cases hh : deltaHeaderCursor delta
      rw [hh] at hb hpos
      simp_all
    unfold applyOffsetDelta
    rw [hdr]
    dsimp only
    cases hprod with
    | done rpos produced hTp =>
      -- T = 0: either the first operation is empty (early return) or the
      -- allocated empty buffer is already full
      have hT : deltaTargetSize delta = 0 := by omega
      rw [hT]
      by_cases hfirst : ((readDeltaOperation ⟨delta, some rpos₀⟩ source).1).length = 0
      · exact ⟨0, (readDeltaOperation ⟨delta, some rpos₀⟩ source).1, by rw [if_pos hfirst]⟩
      · obtain ⟨out, hout⟩ := fillLoop_full source
          ((readDeltaOperation ⟨delta, some rpos₀⟩ source).2)
          ((listCopy (List.replicate 0 0) (readDeltaOperation ⟨delta, some rpos₀⟩ source).1 0).1)
          ((listCopy (List.replicate 0 0) (readDeltaOperation ⟨delta, some rpos₀⟩ source).1 0).2)
          (by rw [listCopy_length, List.length_replicate]; omega)
        refine ⟨1, out, ?_⟩
        rw [if_neg hfirst]
        exact hout
    | step rpos produced op c' rpos' hlt hop hpos' hin hrest =>
      rw [hop]
      dsimp only
      have hc' : c' = ⟨delta, some rpos'⟩ := by
        have hb : c'.buffer = delta := by
          have := readDeltaOperation_buffer ⟨delta, some rpos₀⟩ source
          rw [hop] at this
          exact this
        cases c'
        simp_all
      by_cases hfirst : op.length = deltaTargetSize delta
      · exact ⟨0, op, by rw [if_pos hfirst]⟩
      · set T := deltaTargetSize delta with hTdef
        have hq2 : (listCopy (List.replicate T 0) op 0).2 = min op.length T := by
          simp [listCopy]
        by_cases hcase : op.length < T
        · have hn : (listCopy (List.replicate T 0) op 0).2 = op.length := by
            rw [hq2]; omega
          obtain ⟨fuel, out, hfo⟩ := fillLoop_terminates delta source T rpos' (0 + op.length)
            hrest ((listCopy (List.replicate T 0) op 0).1)
            (by rw [listCopy_length, List.length_replicate]) (by omega)
          refine ⟨fuel, out, ?_⟩
          rw [if_neg hfirst, hn, hc']
          rw [Nat.zero_add] at hfo
          exact hfo
        · -- op.length > T (and ≠ T): the first copy already fills the target
          have hn : (listCopy (List.replicate T 0) op 0).2 = T := by
            rw [hq2]; omega
          obtain ⟨out, hout⟩ := fillLoop_full source c'
            ((listCopy (List.replicate T 0) op 0).1) T
            (by rw [listCopy_length, List.length_replicate])
          refine ⟨1, out, ?_⟩
          rw [if_neg hfirst, hn]
          exact hout
  · intro source c buf pos hex hpos fuel
    exact fillLoop_exhausted source fuel c buf pos hex hpos

/-- C8 witness: a two-insert delta reaching its declared target size of
2 terminates, and a fill loop whose cursor has run past its buffer with
an unfilled target returns none at a concrete fuel. -/
theorem applyOffsetDelta_terminates_iff_produces_witness :
    (∃ fuel out, applyOffsetDelta fuel [0, 2, 1, 97, 1, 98] [] = some out) ∧
    fillLoop [] 3 ⟨[5], some 9⟩ [0, 0] 0 = none := by
  constructor
  · refine applyOffsetDelta_terminates_iff_produces.1 [0, 2, 1, 97, 1, 98] [] 2 (by decide) ?_
    refine ProducesTarget.step 2 0 [97] ⟨[0, 2, 1, 97, 1, 98], some 4⟩ 4
      (by decide) (by decide) rfl (by decide) ?_
    refine ProducesTarget.step 4 1 [98] ⟨[0, 2, 1, 97, 1, 98], some 6⟩ 6
      (by decide) (by decide) rfl (by decide) ?_
    exact ProducesTarget.done 6 2 (by decide)
  · exact applyOffsetDelta_terminates_iff_produces.2 [] ⟨[5], some 9⟩ [0, 0] 0
      (by decide) (by decide) 3

/-! ## C9: the early-return optimization -/

/-- C9: when the very first decoded instruction alone produces exactly
the declared target size, the early-return path (returning that
instruction's output directly) and the spec's general path (allocating a
target buffer and copying every instruction's output into it) return
byte-for-byte identical buffers. -/
theorem applyOffsetDelta_early_return_eq_general :
    ∀ (delta source op : Buf) (c₃ : Cursor),
      readDeltaOperation (deltaHeaderCursor delta) source = (op, c₃) →
      op.length = deltaTargetSize delta →
      (∀ fuel, applyOffsetDelta fuel delta source = some op) ∧
      (∀ fuel, 1 ≤ fuel → applyOffsetDeltaGeneral fuel delta source = some op) := by
  intro delta source op c₃ hop hlen
  constructor
  · intro fuel
    unfold applyOffsetDelta
    rw [hop]
    exact if_pos hlen
  · intro fuel hfuel
    obtain ⟨k, rfl⟩ : ∃ k, fuel = k + 1 := ⟨fuel - 1, by omega⟩
    unfold applyOffsetDeltaGeneral
    rw [hop]
    dsimp only
    set T := deltaTargetSize delta with hT
    have h1 : List.take T op = op := List.take_of_length_le (Nat.le_of_eq hlen)
    have h3 : List.drop T op = [] := List.drop_eq_nil_of_le (Nat.le_of_eq hlen)
    have hq : listCopy (List.replicate T 0) op 0 = (op, T) := by
      simp only [listCopy, List.take_zero, List.length_replicate, Nat.sub_zero, hlen,
        min_self, Nat.zero_add, List.nil_append, h1]
      rw [List.drop_eq_nil_of_le (by simp), List.append_nil]
    rw [hq]
    dsimp only
    simp only [fillLoop]
    have hq₂ : (listCopy op (readDeltaOperation c₃ source).1 T).2 = 0 := by
      simp only [listCopy, hlen, Nat.sub_self, Nat.min_zero]
    rw [hq₂, if_neg (by omega)]
    simp only [listCopy, hlen, Nat.sub_self, Nat.min_zero, List.take_zero, Nat.add_zero,
      List.nil_append, List.append_nil, h1, h3]

/-- C9 witness: a delta whose first (insert) instruction alone produces
the single declared target byte; both paths return it. -/
theorem applyOffsetDelta_early_return_eq_general_witness :
    applyOffsetDelta 0 [0, 1, 1, 97] [] = some [97] ∧
    applyOffsetDeltaGeneral 1 [0, 1, 1, 97] [] = some [97] :=
  ⟨(applyOffsetDelta_early_return_eq_general [0, 1, 1, 97] [] [97]
      ⟨[0, 1, 1, 97], some 4⟩ (by decide) (by decide)).1 0,
   (applyOffsetDelta_early_return_eq_general [0, 1, 1, 97] [] [97]
      ⟨[0, 1, 1, 97], some 4⟩ (by decide) (by decide)).2 1 (by decide)⟩

/-! ## The Reader: a bounded random-access file reader -/

/-- The Reader class over an open file descriptor: the file's bytes plus
the current logical offset.  The scratch buffer of the source is
allocation detail only and does not appear. -/
structure Reader where
  file : Buf
  offset : Nat
  deriving Repr, DecidableEq

/-- Reader.seek(bytes): offset += bytes.  The displacement may be
negative (the index lookup uses a -4 displacement when the first hash
byte is 255); a negative resulting offset, which readSync would reject,
never arises on the verified paths and is truncated to 0 here. -/
def Reader.seek (r : Reader) (d : Int) : Reader :=
  { r with offset := ((r.offset : Int) + d).toNat }

/-- Reader.read(bytes): readSync returns min(bytes, available) bytes at
the current offset and the offset advances by the bytes actually read. -/
def Reader.read (r : Reader) (n : Nat) : Buf × Reader :=
  let bs := extract r.file r.offset n
  (bs, { r with offset := r.offset + bs.length })

/-- Reader.peek(bytes): read without advancing the offset. -/
def Reader.peek (r : Reader) (n : Nat) : Buf :=
  extract r.file r.offset n

/-- Big-endian value of a byte list (Buffer.readUInt32BE at 0). -/
def beVal (bs : Buf) : Nat := bs.foldl (fun a b => a * 256 + b) 0

/-- Reader.readUInt32BE(offset): seek by offset, read 4 bytes, decode
big-endian.  Node's Buffer.readUInt32BE throws a range error when fewer
than 4 bytes were available. -/
def Reader.readUInt32BE (r : Reader) (off : Int) : Except String (Nat × Reader) :=
  let p := (r.seek off).read 4
  if p.1.length = 4 then .ok (beVal p.1, p.2) else .error "out of range"

/-- Reader.readUInt8(offset): seek by offset, read 1 byte. -/
def Reader.readUInt8 (r : Reader) (off : Int) : Except String (Nat × Reader) :=
  let p := (r.seek off).read 1
  if p.1.length = 1 then .ok (p.1.getD 0 0, p.2) else .error "out of range"

/-! ## The pack index: searchGitIndex / getOidFromIdx -/

/-- The 8-byte version-2 index signature: 0xff, tOc, and version 2. -/
def idxV2 : Buf := [255, 116, 79, 99, 0, 0, 0, 2]

/-- The bucket scan of getOidFromIdx: compare up to the remaining number
of candidate 20-byte hashes against the wanted oid; on a match at scan
index i, skip the rest of the hash table, the CRC table and the first
start + i offsets, then read the 4-byte big-endian pack offset.  Falling
out of the loop returns undefined, modelled as ok none. -/
def scanHashes (oid : Buf) (start n : Nat) : Reader → Nat → Nat → Except String (Option Nat)
  | _, _, 0 => .ok none
  | r, i, rem + 1 =>
    let p := r.read 20
    if p.1 = oid then
      let r₁ := ((p.2.seek (20 * ((n : Int) - i - start - 1))).seek (4 * (n : Int))).seek
        (4 * ((i : Int) + start))
      match r₁.readUInt32BE 0 with
      | .error e => .error e
      | .ok (v, _) => .ok (some v)
    else scanHashes oid start n p.2 (i + 1) rem

/-- The bucket start computation of getOidFromIdx: start is 0 when the
oid's first byte is 0 (the reader is untouched), otherwise the fan-out
entry at first - 1. -/
def idxFanoutStart (first : Nat) (r : Reader) : Except String (Nat × Reader) :=
  if first = 0 then .ok (0, r) else r.readUInt32BE (4 * ((first : Int) - 1))

/-- getOidFromIdx: read the bucket bounds from the fan-out table, skip
to its last entry for the total hash count, skip to the bucket's start
in the hash table and scan it. -/
def getOidFromIdx (oid : Buf) (r : Reader) : Except String (Option Nat) := do
  let first := oid.headD 0
  let (start, r₁) ← idxFanoutStart first r
  let (end_, r₂) ← r₁.readUInt32BE 0
  let length := end_ - start
  let r₃ := r₂.seek (4 * (255 - (first : Int) - 1))
  let (hashTableLength, r₄) ← r₃.readUInt32BE 0
  let r₅ := r₄.seek (20 * (start : Int))
  scanHashes oid start hashTableLength r₅ 0 length

/-- JS truthiness of the number-or-undefined value getOidFromIdx
returns: 0 and undefined are falsy. -/
def jsTruthy : Option Nat → Bool
  | some n => n != 0
  | none => false

/-- searchGitIndex: check the 8-byte signature (throwing on mismatch),
look the oid up, and return the offset if it is truthy, otherwise null.
A pack offset of 0 is therefore indistinguishable from not-found. -/
def searchGitIndex (file : Buf) (oid : Buf) : Except String (Option Nat) :=
  let p := (Reader.mk file 0).read 8
  if p.1 = idxV2 then
    match getOidFromIdx oid p.2 with
    | .error e => .error e
    | .ok value => .ok (if jsTruthy value then value else none)
  else .error "unsupported IDX file"

/-! ## Well-formed version-2 index files, by construction -/

/-- The 4 big-endian bytes of a 32-bit value. -/
def be4 (v : Nat) : Buf := [v / 16777216 % 256, v / 65536 % 256, v / 256 % 256, v % 256]

/-- Fan-out entry b of an index over the hashes hs: the number of hashes
whose first byte is at most b. -/
def fanoutCount (hs : List Buf) (b : Nat) : Nat :=
  hs.countP (fun h => decide (h.headD 0 ≤ b))

/-- A version-2 index file over sorted hashes hs with parallel pack
offsets os and CRC bytes crcs: signature, 256-entry cumulative fan-out
table, hash table, CRC table, offset table. -/
def encodeIndex (hs : List Buf) (os : List Nat) (crcs : Buf) : Buf :=
  idxV2 ++ ((List.range 256).map (fun b => be4 (fanoutCount hs b))).flatten
    ++ hs.flatten ++ crcs ++ (os.map be4).flatten

set_option maxRecDepth 8000 in
example :
    searchGitIndex (encodeIndex [1 :: List.replicate 19 0] [12] [0, 0, 0, 0])
      (1 :: List.replicate 19 0) = .ok (some 12) := by rfl

set_option maxRecDepth 8000 in
example :
    searchGitIndex (encodeIndex [1 :: List.replicate 19 0] [0] [0, 0, 0, 0])
      (1 :: List.replicate 19 0) = .ok none := by rfl

set_option maxRecDepth 8000 in
example :
    searchGitIndex (encodeIndex [1 :: List.replicate 19 0] [12] [0, 0, 0, 0])
      (2 :: List.replicate 19 0) = .ok none := by rfl

example :
    searchGitIndex (List.replicate 8 0) (1 :: List.replicate 19 0) =
      .error "unsupported IDX file" := by rfl

/-! ## Slicing lemmas for the encoded index -/

theorem extract_append_right (l₁ l₂ : Buf) (off n : Nat) (h : l₁.length ≤ off) :
    extract (l₁ ++ l₂) off n = extract l₂ (off - l₁.length) n := by
  unfold extract
  rw [List.drop_append_eq_append_drop, List.drop_eq_nil_of_le h, List.nil_append]

theorem extract_append_left (l₁ l₂ : Buf) (off n : Nat) (h : off + n ≤ l₁.length) :
    extract (l₁ ++ l₂) off n = extract l₁ off n := by
  unfold extract
  rw [List.drop_append_eq_append_drop]
  rw [show off - l₁.length = 0 from by omega, List.drop_zero]
  rw [List.take_append_eq_append_take]
  rw [show n - (List.drop off l₁).length = 0 from by rw [List.length_drop]; omega]
  rw [List.take_zero, List.append_nil]

theorem flatten_extract_uniform (k : Nat) :
    ∀ (L : List Buf) (j : Nat), (∀ l ∈ L, l.length = k) → j < L.length →
      extract L.flatten (k * j) k = L.getD j [] := by
  intro L
  induction L with
  | nil => intro j _ hj; simp at hj
  | cons l t ih =>
    intro j hlen hj
    have hl : l.length = k := hlen l (by simp)
    cases j with
    | zero =>
      simp only [List.flatten_cons, Nat.mul_zero, List.getD_cons_zero]
      rw [extract_append_left _ _ 0 k (by omega)]
      unfold extract
      rw [List.drop_zero]
      exact List.take_of_length_le (by omega)
    | succ m =>
      simp only [List.flatten_cons, List.getD_cons_succ]
      have h1 : l.length ≤ k * (m + 1) := by rw [Nat.mul_succ, hl]; omega
      rw [extract_append_right _ _ _ _ h1]
      have h2 : k * (m + 1) - l.length = k * m := by rw [Nat.mul_succ, hl]; omega
      rw [h2]
      exact ih m (fun x hx => hlen x (by simp [hx])) (by simpa using hj)

theorem flatten_length_uniform (k : Nat) :
    ∀ (L : List Buf), (∀ l ∈ L, l.length = k) → L.flatten.length = k * L.length := by
  intro L
  induction L with
  | nil => intro _; simp
  | cons l t ih =>
    intro hlen
    have hl : l.length = k := hlen l (by simp)
    simp only [List.flatten_cons, List.length_append, List.length_cons]
    rw [ih (fun x hx => hlen x (by simp [hx])), hl, Nat.mul_succ]
    omega

theorem be4_length (v : Nat) : (be4 v).length = 4 := rfl

theorem beVal_be4 (v : Nat) (h : v < 4294967296) : beVal (be4 v) = v := by
  show ((((0 * 256 + v / 16777216 % 256) * 256 + v / 65536 % 256) * 256 + v / 256 % 256) * 256
    + v % 256) = v
  omega

theorem getD_map_range (f : Nat → Buf) (m b : Nat) (hb : b < m) :
    ((List.range m).map f).getD b [] = f b := by
  rw [List.getD_eq_getElem _ _ (by simp [hb])]
  simp

/-! ## Reading the regions of an encoded index -/

theorem fanoutBytes_length (hs : List Buf) :
    (((List.range 256).map (fun b => be4 (fanoutCount hs b))).flatten).length = 1024 := by
  rw [flatten_length_uniform 4 _ (by intro l hl; simp at hl; obtain ⟨b, _, rfl⟩ := hl; rfl)]
  simp

theorem encodeIndex_magic (hs : List Buf) (os : List Nat) (crcs : Buf) :
    extract (encodeIndex hs os crcs) 0 8 = idxV2 := by
  unfold encodeIndex
  rw [List.append_assoc, List.append_assoc, List.append_assoc]
  rw [extract_append_left _ _ 0 8 (by rfl)]
  rfl

theorem encodeIndex_fanout (hs : List Buf) (os : List Nat) (crcs : Buf) (b : Nat)
    (hb : b < 256) :
    extract (encodeIndex hs os crcs) (8 + 4 * b) 4 = be4 (fanoutCount hs b) := by
  unfold encodeIndex
  rw [List.append_assoc, List.append_assoc, List.append_assoc]
  rw [extract_append_right _ _ _ _ (by simp [idxV2] <;> omega)]
  rw [show 8 + 4 * b - idxV2.length = 4 * b from by simp [idxV2] <;> omega]
  rw [extract_append_left _ _ _ _ (by rw [fanoutBytes_length]; omega)]
  rw [flatten_extract_uniform 4 _ b
    (by intro l hl; simp at hl; obtain ⟨x, _, rfl⟩ := hl; rfl) (by simpa using hb)]
  rw [getD_map_range _ _ _ hb]

theorem encodeIndex_hash (hs : List Buf) (os : List Nat) (crcs : Buf) (j : Nat)
    (H20 : ∀ h ∈ hs, h.length = 20) (hj : j < hs.length) :
    extract (encodeIndex hs os crcs) (1032 + 20 * j) 20 = hs.getD j [] := by
  unfold encodeIndex
  rw [List.append_assoc, List.append_assoc, List.append_assoc]
  rw [extract_append_right _ _ _ _ (by simp [idxV2] <;> omega)]
  rw [show 1032 + 20 * j - idxV2.length = 1024 + 20 * j from by simp [idxV2] <;> omega]
  rw [extract_append_right _ _ _ _ (by rw [fanoutBytes_length]; omega)]
  rw [show 1024 + 20 * j - (((List.range 256).map
      (fun b => be4 (fanoutCount hs b))).flatten).length = 20 * j from by
    rw [fanoutBytes_length]; omega]
  rw [extract_append_left _ _ _ _ (by
    rw [flatten_length_uniform 20 hs H20]; omega)]
  exact flatten_extract_uniform 20 hs j H20 hj

theorem encodeIndex_offset (hs : List Buf) (os : List Nat) (crcs : Buf) (j : Nat)
    (H20 : ∀ h ∈ hs, h.length = 20) (Hcrc : crcs.length = 4 * hs.length)
    (Hoslen : os.length = hs.length) (hj : j < os.length) :
    extract (encodeIndex hs os crcs) (1032 + 24 * hs.length + 4 * j) 4 =
      be4 (os.getD j 0) := by
  unfold encodeIndex
  rw [List.append_assoc, List.append_assoc, List.append_assoc]
  rw [extract_append_right _ _ _ _ (by simp [idxV2] <;> omega)]
  rw [show 1032 + 24 * hs.length + 4 * j - idxV2.length =
    1024 + 24 * hs.length + 4 * j from by simp [idxV2] <;> omega]
  rw [extract_append_right _ _ _ _ (by rw [fanoutBytes_length]; omega)]
  rw [show 1024 + 24 * hs.length + 4 * j - (((List.range 256).map
      (fun b => be4 (fanoutCount hs b))).flatten).length =
      24 * hs.length + 4 * j from by rw [fanoutBytes_length]; omega]
  rw [extract_append_right _ _ _ _ (by
    rw [flatten_length_uniform 20 hs H20]; omega)]
  rw [show 24 * hs.length + 4 * j - (hs.flatten).length = 4 * hs.length + 4 * j from by
    rw [flatten_length_uniform 20 hs H20]; omega]
  rw [extract_append_right _ _ _ _ (by rw [Hcrc]; omega)]
  rw [show 4 * hs.length + 4 * j - crcs.length = 4 * j from by rw [Hcrc]; omega]
  rw [flatten_extract_uniform 4 (os.map be4) j
    (by intro l hl; simp at hl; obtain ⟨x, _, rfl⟩ := hl; rfl) (by simpa using hj)]
  rw [List.getD_eq_getElem _ _ (by simpa using hj)]
  rw [List.getElem_map]
  rw [List.getD_eq_getElem _ _ hj]

/-! ## Sorted hash lists and bucket arithmetic -/

/-- Strict lexicographic byte-list order, the order of the index's hash
table. -/
def lexLtB : Buf → Buf → Bool
  | [], [] => false
  | [], _ :: _ => true
  | _ :: _, [] => false
  | a :: as, b :: bs => decide (a < b) || (decide (a = b) && lexLtB as bs)

theorem lexLtB_head_le : ∀ {x y : Buf}, lexLtB x y = true → x.headD 0 ≤ y.headD 0 := by
  intro x y h
  match x, y with
  | [], [] => simp [lexLtB] at h
  | [], b :: bs => simp [List.headD]
  | a :: as, [] => simp [lexLtB] at h
  | a :: as, b :: bs =>
    simp only [lexLtB, Bool.or_eq_true, Bool.and_eq_true, decide_eq_true_eq] at h
    simp only [List.headD]
    rcases h with h | ⟨h, _⟩ <;> omega

theorem lexLtB_irrefl : ∀ (x : Buf), lexLtB x x = false := by
  intro x
  induction x with
  | nil => rfl
  | cons a t ih => simp [lexLtB, ih]

theorem sorted_getD_ne (hs : List Buf)
    (Hsort : hs.Pairwise (fun a b => lexLtB a b = true)) :
    ∀ u t, u < hs.length → t < hs.length → u ≠ t → hs.getD u [] ≠ hs.getD t [] := by
  have key : ∀ u t, u < hs.length → t < hs.length → u < t → hs.getD u [] ≠ hs.getD t [] := by
    intro u t hu ht hut
    have := (List.pairwise_iff_getElem.mp Hsort) u t hu ht hut
    rw [List.getD_eq_getElem _ _ hu, List.getD_eq_getElem _ _ ht]
    intro hEq
    rw [hEq] at this
    rw [lexLtB_irrefl] at this
    exact Bool.false_ne_true this
  intro u t hu ht hne
  rcases Nat.lt_or_ge u t with h | h
  · exact key u t hu ht h
  · have h' : t < u := by omega
    exact fun hEq => key t u ht hu h' hEq.symm

theorem fanoutCount_le_length (hs : List Buf) (b : Nat) : fanoutCount hs b ≤ hs.length :=
  List.countP_le_length _

theorem fanoutCount_255 (hs : List Buf) (H20 : ∀ h ∈ hs, h.length = 20)
    (Hbyte : ∀ h ∈ hs, ∀ b ∈ h, b < 256) : fanoutCount hs 255 = hs.length := by
  unfold fanoutCount
  rw [List.countP_eq_length]
  intro h hh
  have h20 := H20 h hh
  match h with
  | [] => simp at h20
  | a :: t =>
    have ha : a < 256 := Hbyte _ hh a (by simp)
    simp only [List.headD, decide_eq_true_eq]
    omega

/-- For a lexicographically sorted hash list, membership of index t in
the fan-out bucket of byte b is exactly: the first byte of hash t is at
most b. -/
theorem sorted_bucket_iff (hs : List Buf)
    (Hsort : hs.Pairwise (fun a b => lexLtB a b = true)) :
    ∀ (b t : Nat), t < hs.length →
      ((hs.getD t []).headD 0 ≤ b ↔ t < fanoutCount hs b) := by
  induction hs with
  | nil => intro b t ht; simp at ht
  | cons hd tl ih =>
    intro b t ht
    have hhd : ∀ y ∈ tl, lexLtB hd y = true := (List.pairwise_cons.mp Hsort).1
    have htl : tl.Pairwise (fun a b => lexLtB a b = true) := (List.pairwise_cons.mp Hsort).2
    have hstep : fanoutCount (hd :: tl) b =
        fanoutCount tl b + (if hd.headD 0 ≤ b then 1 else 0) := by
      unfold fanoutCount
      rw [List.countP_cons]
      by_cases hp : hd.headD 0 ≤ b <;> simp [hp]
    cases t with
    | zero =>
      rw [List.getD_cons_zero, hstep]
      constructor
      · intro hb
        rw [if_pos hb]
        omega
      · intro hpos
        by_contra hnb
        have hzero : fanoutCount tl b = 0 := by
          unfold fanoutCount
          rw [List.countP_eq_zero]
          intro y hy
          simp only [decide_eq_true_eq]
          have := lexLtB_head_le (hhd y hy)
          omega
        rw [if_neg hnb, hzero] at hpos
        omega
    | succ m =>
      rw [List.getD_cons_succ, hstep]
      have hm : m < tl.length := by simpa using ht
      by_cases hp : hd.headD 0 ≤ b
      · rw [if_pos hp]
        rw [ih htl b m hm]
        omega
      · rw [if_neg hp]
        have hzero : fanoutCount tl b = 0 := by
          unfold fanoutCount
          rw [List.countP_eq_zero]
          intro y hy
          simp only [decide_eq_true_eq]
          have := lexLtB_head_le (hhd y hy)
          omega
        rw [hzero]
        have hmem : tl.getD m [] ∈ tl := by
          rw [List.getD_eq_getElem _ _ hm]
          exact List.getElem_mem hm
        have := lexLtB_head_le (hhd _ hmem)
        constructor
        · intro hle
          omega
        · intro hlt
          omega

/-! ## Stepping the Reader over an encoded index -/

theorem ok_bind {ε α β : Type} (a : α) (f : α → Except ε β) :
    ((Except.ok a : Except ε α) >>= f) = f a := rfl

theorem seek_at (r : Reader) (d : Int) (target : Nat)
    (h : (r.offset : Int) + d = (target : Nat)) : r.seek d = ⟨r.file, target⟩ := by
  obtain ⟨file, off⟩ := r
  unfold Reader.seek
  dsimp only at h ⊢
  rw [h]
  simp

theorem read_at (r : Reader) (n : Nat) (chunk : Buf) (after : Nat)
    (hx : extract r.file r.offset n = chunk) (hafter : after = r.offset + chunk.length) :
    r.read n = (chunk, ⟨r.file, after⟩) := by
  obtain ⟨file, off⟩ := r
  unfold Reader.read
  dsimp only at hx hafter ⊢
  rw [hx, hafter]

theorem readUInt32BE_at (r : Reader) (rel : Int) (v target after : Nat)
    (htarget : (r.offset : Int) + rel = (target : Nat))
    (hafter : after = target + 4)
    (hv : v < 4294967296)
    (hx : extract r.file target 4 = be4 v) :
    r.readUInt32BE rel = .ok (v, ⟨r.file, after⟩) := by
  have hseek : r.seek rel = ⟨r.file, target⟩ := seek_at r rel target htarget
  unfold Reader.readUInt32BE
  rw [hseek]
  unfold Reader.read
  dsimp only
  rw [hx]
  rw [if_pos (show (be4 v).length = 4 from rfl)]
  rw [beVal_be4 v hv]
  rw [hafter, show (be4 v).length = 4 from rfl]

/-- Evaluating getOidFromIdx over an encoded index down to the bucket
scan: the reader lands at the bucket's start in the hash table, with the
total hash count from the last fan-out entry and the bucket length from
the two fan-out reads. -/
theorem getOidFromIdx_encode (hs : List Buf) (os : List Nat) (crcs : Buf) (oid : Buf)
    (first start : Nat)
    (hfq : oid.headD 0 = first) (h255 : first ≤ 255)
    (hstart : start = if first = 0 then 0 else fanoutCount hs (first - 1))
    (H20 : ∀ h ∈ hs, h.length = 20)
    (Hbyte : ∀ h ∈ hs, ∀ b ∈ h, b < 256)
    (HN : hs.length < 4294967296) :
    getOidFromIdx oid ⟨encodeIndex hs os crcs, 8⟩ =
      scanHashes oid start hs.length ⟨encodeIndex hs os crcs, 1032 + 20 * start⟩ 0
        (fanoutCount hs first - start) := by
  unfold getOidFromIdx
  dsimp only
  rw [hfq]
  have hA : idxFanoutStart first ⟨encodeIndex hs os crcs, 8⟩ =
      .ok (start, ⟨encodeIndex hs os crcs, 8 + 4 * first⟩) := by
    unfold idxFanoutStart
    by_cases h0 : first = 0
    · subst h0
      rw [if_pos rfl, hstart]
      simp
    · rw [if_neg h0, hstart, if_neg h0]
      refine readUInt32BE_at _ _ _ (8 + 4 * (first - 1)) _ ?_ ?_ ?_ ?_
      · dsimp only
        omega
      · omega
      · have := fanoutCount_le_length hs (first - 1)
        omega
      · exact encodeIndex_fanout hs os crcs (first - 1) (by omega)
  rw [hA, ok_bind]
  dsimp only
  have hB : Reader.readUInt32BE ⟨encodeIndex hs os crcs, 8 + 4 * first⟩ 0 =
      .ok (fanoutCount hs first, ⟨encodeIndex hs os crcs, 12 + 4 * first⟩) := by
    refine readUInt32BE_at _ _ _ (8 + 4 * first) _ ?_ ?_ ?_ ?_
    · dsimp only
      omega
    · omega
    · have := fanoutCount_le_length hs first
      omega
    · exact encodeIndex_fanout hs os crcs first (by omega)
  rw [hB, ok_bind]
  dsimp only
  have hC : Reader.seek ⟨encodeIndex hs os crcs, 12 + 4 * first⟩
      (4 * (255 - (first : Int) - 1)) = ⟨encodeIndex hs os crcs, 1028⟩ := by
    refine seek_at _ _ 1028 ?_
    dsimp only
    omega
  rw [hC]
  have hD : Reader.readUInt32BE ⟨encodeIndex hs os crcs, 1028⟩ 0 =
      .ok (hs.length, ⟨encodeIndex hs os crcs, 1032⟩) := by
    refine readUInt32BE_at _ _ _ 1028 _ ?_ ?_ ?_ ?_
    · dsimp only
      omega
    · omega
    · exact HN
    · have := encodeIndex_fanout hs os crcs 255 (by omega)
      rw [fanoutCount_255 hs H20 Hbyte] at this
      rw [show (1028 : Nat) = 8 + 4 * 255 from by norm_num]
      exact this
  rw [hD, ok_bind]
  dsimp only
  have hE : Reader.seek ⟨encodeIndex hs os crcs, 1032⟩ (20 * (start : Int)) =
      ⟨encodeIndex hs os crcs, 1032 + 20 * start⟩ := by
    refine seek_at _ _ (1032 + 20 * start) ?_
    dsimp only
    omega
  rw [hE]

/-! ## The bucket scan over an encoded index -/

theorem scanHashes_found (hs : List Buf) (os : List Nat) (crcs : Buf) (oid : Buf)
    (start t : Nat)
    (H20 : ∀ h ∈ hs, h.length = 20)
    (Hoslen : os.length = hs.length)
    (Hos : ∀ o ∈ os, o < 4294967296)
    (Hcrc : crcs.length = 4 * hs.length)
    (hoid : hs.getD t [] = oid)
    (hne : ∀ u, u < hs.length → u ≠ t → hs.getD u [] ≠ oid) :
    ∀ (rem i : Nat),
      start + i + rem ≤ hs.length →
      start + i ≤ t → t < start + i + rem →
      scanHashes oid start hs.length
        ⟨encodeIndex hs os crcs, 1032 + 20 * (start + i)⟩ i rem =
        .ok (some (os.getD t 0)) := by
  intro rem
  induction rem with
  | zero => intro i h1 h2 h3; omega
  | succ m ih =>
    intro i hwin hle hlt
    have hti : start + i < hs.length := by omega
    have hchunk : extract (encodeIndex hs os crcs) (1032 + 20 * (start + i)) 20 =
        hs.getD (start + i) [] :=
      encodeIndex_hash hs os crcs (start + i) H20 hti
    have hlen20 : (hs.getD (start + i) []).length = 20 := by
      apply H20
      rw [List.getD_eq_getElem _ _ hti]
      exact List.getElem_mem hti
    have hread : Reader.read ⟨encodeIndex hs os crcs, 1032 + 20 * (start + i)⟩ 20 =
        (hs.getD (start + i) [],
         ⟨encodeIndex hs os crcs, 1032 + 20 * (start + i + 1)⟩) := by
      refine read_at _ _ _ _ hchunk ?_
      dsimp only
      rw [hlen20]
      omega
    simp only [scanHashes]
    rw [hread]
    dsimp only
    by_cases hit : start + i = t
    · have hoid' : hs.getD (start + i) [] = oid := by rw [hit]; exact hoid
      rw [if_pos hoid']
      have hseek1 : Reader.seek ⟨encodeIndex hs os crcs, 1032 + 20 * (start + i + 1)⟩
          (20 * ((hs.length : Int) - i - start - 1)) =
          ⟨encodeIndex hs os crcs, 1032 + 20 * hs.length⟩ := by
        refine seek_at _ _ _ ?_
        dsimp only
        omega
      have hseek2 : Reader.seek ⟨encodeIndex hs os crcs, 1032 + 20 * hs.length⟩
          (4 * (hs.length : Int)) =
          ⟨encodeIndex hs os crcs, 1032 + 24 * hs.length⟩ := by
        refine seek_at _ _ _ ?_
        dsimp only
        omega
      have hseek3 : Reader.seek ⟨encodeIndex hs os crcs, 1032 + 24 * hs.length⟩
          (4 * ((i : Int) + start)) =
          ⟨encodeIndex hs os crcs, 1032 + 24 * hs.length + 4 * (start + i)⟩ := by
        refine seek_at _ _ _ ?_
        dsimp only
        omega
      rw [hseek1, hseek2, hseek3]
      have hosmem : os.getD (start + i) 0 ∈ os := by
        rw [List.getD_eq_getElem _ _ (by omega : start + i < os.length)]
        exact List.getElem_mem (by omega)
      have hfinal : Reader.readUInt32BE
          ⟨encodeIndex hs os crcs, 1032 + 24 * hs.length + 4 * (start + i)⟩ 0 =
          .ok (os.getD (start + i) 0,
               ⟨encodeIndex hs os crcs, 1032 + 24 * hs.length + 4 * (start + i) + 4⟩) := by
        refine readUInt32BE_at _ _ _ (1032 + 24 * hs.length + 4 * (start + i)) _ ?_ rfl ?_ ?_
        · dsimp only
          omega
        · exact Hos _ hosmem
        · exact encodeIndex_offset hs os crcs (start + i) H20 Hcrc Hoslen (by omega)
      rw [hfinal]
      dsimp only
      rw [hit]
    · rw [if_neg (hne (start + i) hti hit)]
      have harith : 1032 + 20 * (start + i + 1) = 1032 + 20 * (start + (i + 1)) := by
        omega
      rw [harith]
      exact ih (i + 1) (by omega) (by omega) (by omega)

theorem scanHashes_absent (hs : List Buf) (os : List Nat) (crcs : Buf) (oid : Buf)
    (start : Nat)
    (H20 : ∀ h ∈ hs, h.length = 20)
    (hne : ∀ u, u < hs.length → hs.getD u [] ≠ oid) :
    ∀ (rem i : Nat),
      start + i + rem ≤ hs.length →
      scanHashes oid start hs.length
        ⟨encodeIndex hs os crcs, 1032 + 20 * (start + i)⟩ i rem = .ok none := by
  intro rem
  induction rem with
  | zero => intro i _; rfl
  | succ m ih =>
    intro i hwin
    have hti : start + i < hs.length := by omega
    have hchunk : extract (encodeIndex hs os crcs) (1032 + 20 * (start + i)) 20 =
        hs.getD (start + i) [] :=
      encodeIndex_hash hs os crcs (start + i) H20 hti
    have hlen20 : (hs.getD (start + i) []).length = 20 := by
      apply H20
      rw [List.getD_eq_getElem _ _ hti]
      exact List.getElem_mem hti
    have hread : Reader.read ⟨encodeIndex hs os crcs, 1032 + 20 * (start + i)⟩ 20 =
        (hs.getD (start + i) [],
         ⟨encodeIndex hs os crcs, 1032 + 20 * (start + i + 1)⟩) := by
      refine read_at _ _ _ _ hchunk ?_
      dsimp only
      rw [hlen20]
      omega
    simp only [scanHashes]
    rw [hread]
    dsimp only
    rw [if_neg (hne (start + i) hti)]
    have harith : 1032 + 20 * (start + i + 1) = 1032 + 20 * (start + (i + 1)) := by
      omega
    rw [harith]
    exact ih (i + 1) (by omega)

/-! ## Full index lookup over an encoded index -/

theorem head_le_255 (hs : List Buf) (H20 : ∀ h ∈ hs, h.length = 20)
    (Hbyte : ∀ h ∈ hs, ∀ b ∈ h, b < 256) : ∀ h ∈ hs, h.headD 0 ≤ 255 := by
  intro h hh
  have h20 := H20 h hh
  match h with
  | [] => simp at h20
  | a :: t =>
    have ha : a < 256 := Hbyte _ hh a (by simp)
    simp only [List.headD]
    omega

theorem getD_mem_of_lt (hs : List Buf) (t : Nat) (ht : t < hs.length) :
    hs.getD t [] ∈ hs := by
  rw [List.getD_eq_getElem _ _ ht]
  exact List.getElem_mem ht

theorem searchGitIndex_magic_step (hs : List Buf) (os : List Nat) (crcs : Buf) (oid : Buf) :
    searchGitIndex (encodeIndex hs os crcs) oid =
      match getOidFromIdx oid ⟨encodeIndex hs os crcs, 8⟩ with
      | .error e => .error e
      | .ok value => .ok (if jsTruthy value then value else none) := by
  have hmagic : Reader.read ⟨encodeIndex hs os crcs, 0⟩ 8 =
      (idxV2, ⟨encodeIndex hs os crcs, 8⟩) := by
    refine read_at _ _ _ _ ?_ ?_
    · exact encodeIndex_magic hs os crcs
    · rfl
  unfold searchGitIndex
  dsimp only
  rw [hmagic]
  dsimp only
  rw [if_pos rfl]

theorem searchGitIndex_encode_found (hs : List Buf) (os : List Nat) (crcs : Buf) (t : Nat)
    (H20 : ∀ h ∈ hs, h.length = 20)
    (Hbyte : ∀ h ∈ hs, ∀ b ∈ h, b < 256)
    (Hsort : hs.Pairwise (fun a b => lexLtB a b = true))
    (Hoslen : os.length = hs.length)
    (Hos : ∀ o ∈ os, o < 4294967296)
    (Hcrc : crcs.length = 4 * hs.length)
    (HN : hs.length < 4294967296)
    (ht : t < hs.length) :
    searchGitIndex (encodeIndex hs os crcs) (hs.getD t []) =
      .ok (if os.getD t 0 = 0 then none else some (os.getD t 0)) := by
  rw [searchGitIndex_magic_step]
  have h255 : (hs.getD t []).headD 0 ≤ 255 :=
    head_le_255 hs H20 Hbyte _ (getD_mem_of_lt hs t ht)
  rw [getOidFromIdx_encode hs os crcs (hs.getD t []) ((hs.getD t []).headD 0)
    (if (hs.getD t []).headD 0 = 0 then 0 else fanoutCount hs ((hs.getD t []).headD 0 - 1))
    rfl h255 rfl H20 Hbyte HN]
  have hbucket : t < fanoutCount hs ((hs.getD t []).headD 0) :=
    (sorted_bucket_iff hs Hsort ((hs.getD t []).headD 0) t ht).mp (le_refl _)
  have hstartle : (if (hs.getD t []).headD 0 = 0 then 0
      else fanoutCount hs ((hs.getD t []).headD 0 - 1)) ≤ t := by
    by_cases h0 : (hs.getD t []).headD 0 = 0
    · rw [if_pos h0]
      omega
    · rw [if_neg h0]
      by_contra hgt
      have := (sorted_bucket_iff hs Hsort ((hs.getD t []).headD 0 - 1) t ht).mpr (by omega)
      omega
  have hscan := scanHashes_found hs os crcs (hs.getD t [])
    (if (hs.getD t []).headD 0 = 0 then 0 else fanoutCount hs ((hs.getD t []).headD 0 - 1))
    t H20 Hoslen Hos Hcrc rfl
    (fun u hu hut => sorted_getD_ne hs Hsort u t hu ht hut)
    (fanoutCount hs ((hs.getD t []).headD 0) -
      (if (hs.getD t []).headD 0 = 0 then 0
        else fanoutCount hs ((hs.getD t []).headD 0 - 1)))
    0
    (by
      have := fanoutCount_le_length hs ((hs.getD t []).headD 0)
      omega)
    (by omega)
    (by omega)
  simp only [Nat.add_zero] at hscan
  rw [hscan]
  dsimp only
  simp only [jsTruthy]
  by_cases hz : os.getD t 0 = 0
  · rw [if_pos hz, hz]
    rfl
  · rw [if_neg hz]
    rw [if_pos (by simpa using hz)]

theorem searchGitIndex_encode_absent (hs : List Buf) (os : List Nat) (crcs : Buf) (x : Buf)
    (H20 : ∀ h ∈ hs, h.length = 20)
    (Hbyte : ∀ h ∈ hs, ∀ b ∈ h, b < 256)
    (Hx20 : x.length = 20)
    (Hxb : ∀ b ∈ x, b < 256)
    (HN : hs.length < 4294967296)
    (Hnotin : x ∉ hs) :
    searchGitIndex (encodeIndex hs os crcs) x = .ok none := by
  rw [searchGitIndex_magic_step]
  have h255 : x.headD 0 ≤ 255 := by
    match x, Hx20 with
    | a :: t, _ =>
      have ha : a < 256 := Hxb a (by simp)
      simp only [List.headD]
      omega
  rw [getOidFromIdx_encode hs os crcs x (x.headD 0)
    (if x.headD 0 = 0 then 0 else fanoutCount hs (x.headD 0 - 1))
    rfl h255 rfl H20 Hbyte HN]
  have hscan := scanHashes_absent hs os crcs x
    (if x.headD 0 = 0 then 0 else fanoutCount hs (x.headD 0 - 1))
    H20
    (fun u hu hEq => Hnotin (hEq ▸ getD_mem_of_lt hs u hu))
    (fanoutCount hs (x.headD 0) -
      (if x.headD 0 = 0 then 0 else fanoutCount hs (x.headD 0 - 1)))
    0
    (by
      have h1 := fanoutCount_le_length hs (x.headD 0)
      have h2 : (if x.headD 0 = 0 then 0 else fanoutCount hs (x.headD 0 - 1)) ≤ hs.length := by
        by_cases h0 : x.headD 0 = 0
        · rw [if_pos h0]; omega
        · rw [if_neg h0]; exact fanoutCount_le_length hs _
      omega)
  simp only [Nat.add_zero] at hscan
  rw [hscan]
  rfl

/-! ## C3: index lookup correctness -/

/-- C3 (amended): for every well-formed version-2 index with sorted
hashes and parallel offsets, looking up hash i returns exactly offset i
whenever that offset is nonzero; an entry whose stored pack offset is 0
is reported as NotFound (the scan's result is checked for JS truthiness,
conflating offset 0 with absence); and every 20-byte hash not in the set
returns NotFound, including hashes between buckets and outside the
range. -/
theorem searchGitIndex_lookup_correct :
    ∀ (hs : List Buf) (os : List Nat) (crcs : Buf),
      (∀ h ∈ hs, h.length = 20) →
      (∀ h ∈ hs, ∀ b ∈ h, b < 256) →
      hs.Pairwise (fun a b => lexLtB a b = true) →
      os.length = hs.length →
      (∀ o ∈ os, o < 4294967296) →
      crcs.length = 4 * hs.length →
      hs.length < 4294967296 →
      (∀ t, t < hs.length → os.getD t 0 ≠ 0 →
        searchGitIndex (encodeIndex hs os crcs) (hs.getD t []) =
          .ok (some (os.getD t 0))) ∧
      (∀ t, t < hs.length → os.getD t 0 = 0 →
        searchGitIndex (encodeIndex hs os crcs) (hs.getD t []) = .ok none) ∧
      (∀ x : Buf, x.length = 20 → (∀ b ∈ x, b < 256) → x ∉ hs →
        searchGitIndex (encodeIndex hs os crcs) x = .ok none) := by
  intro hs os crcs H20 Hbyte Hsort Hoslen Hos Hcrc HN
  refine ⟨?_, ?_, ?_⟩
  · intro t ht hz
    have := searchGitIndex_encode_found hs os crcs t H20 Hbyte Hsort Hoslen Hos Hcrc HN ht
    rwa [if_neg hz] at this
  · intro t ht hz
    have := searchGitIndex_encode_found hs os crcs t H20 Hbyte Hsort Hoslen Hos Hcrc HN ht
    rwa [if_pos hz] at this
  · intro x hx20 hxb hnot
    exact searchGitIndex_encode_absent hs os crcs x H20 Hbyte hx20 hxb HN hnot

/-- C3 witness: a two-entry index (offsets 12 and 0); the first hash is
found with its offset, the second (stored offset 0) and an absent hash
return NotFound. -/
theorem searchGitIndex_lookup_correct_witness :
    searchGitIndex
        (encodeIndex [1 :: List.replicate 19 0, 2 :: List.replicate 19 0] [12, 0]
          (List.replicate 8 0))
        ([1 :: List.replicate 19 0, 2 :: List.replicate 19 0].getD 0 []) =
      .ok (some ([12, 0].getD 0 0)) ∧
    searchGitIndex
        (encodeIndex [1 :: List.replicate 19 0, 2 :: List.replicate 19 0] [12, 0]
          (List.replicate 8 0))
        ([1 :: List.replicate 19 0, 2 :: List.replicate 19 0].getD 1 []) = .ok none ∧
    searchGitIndex
        (encodeIndex [1 :: List.replicate 19 0, 2 :: List.replicate 19 0] [12, 0]
          (List.replicate 8 0))
        (3 :: List.replicate 19 0) = .ok none :=
  ⟨(searchGitIndex_lookup_correct
      [1 :: List.replicate 19 0, 2 :: List.replicate 19 0] [12, 0] (List.replicate 8 0)
      (by decide) (by decide) (by decide) (by decide) (by decide) (by decide)
      (by decide)).1 0 (by decide) (by decide),
   (searchGitIndex_lookup_correct
      [1 :: List.replicate 19 0, 2 :: List.replicate 19 0] [12, 0] (List.replicate 8 0)
      (by decide) (by decide) (by decide) (by decide) (by decide) (by decide)
      (by decide)).2.1 1 (by decide) (by decide),
   (searchGitIndex_lookup_correct
      [1 :: List.replicate 19 0, 2 :: List.replicate 19 0] [12, 0] (List.replicate 8 0)
      (by decide) (by decide) (by decide) (by decide) (by decide) (by decide)
      (by decide)).2.2 (3 :: List.replicate 19 0) (by decide) (by decide) (by decide)⟩

set_option maxRecDepth 8000 in
/-- C3 counterexample: a well-formed one-entry index whose stored pack
offset is 0.  The claim says the lookup returns exactly that offset; the
code returns NotFound (null) because the offset value 0 is falsy. -/
theorem searchGitIndex_offset_zero_not_found :
    searchGitIndex (encodeIndex [1 :: List.replicate 19 0] [0] [0, 0, 0, 0])
      (1 :: List.replicate 19 0) = .ok none ∧
    (Except.ok none : Except String (Option Nat)) ≠ .ok (some 0) := by
  constructor
  · rfl
  · intro h
    injection h with h'
    exact Option.noConfusion h'

/-! ## C7: the fan-out boundary at first byte 0 -/

/-- C7 (amended): for a hash whose first byte is 0 the bucket start is
computed as 0 without reading any fan-out entry (the first - 1
expression is never evaluated, so nothing underflows and no table entry
before index 0 is read), and such a hash present in a well-formed index
is found — provided its stored pack offset is nonzero (a stored offset
of 0 is conflated with NotFound, see C3). -/
theorem idxFanoutStart_zero_bucket :
    (∀ r : Reader, idxFanoutStart 0 r = .ok (0, r)) ∧
    (∀ (hs : List Buf) (os : List Nat) (crcs : Buf) (t : Nat),
      (∀ h ∈ hs, h.length = 20) →
      (∀ h ∈ hs, ∀ b ∈ h, b < 256) →
      hs.Pairwise (fun a b => lexLtB a b = true) →
      os.length = hs.length →
      (∀ o ∈ os, o < 4294967296) →
      crcs.length = 4 * hs.length →
      hs.length < 4294967296 →
      t < hs.length → (hs.getD t []).headD 0 = 0 → os.getD t 0 ≠ 0 →
      searchGitIndex (encodeIndex hs os crcs) (hs.getD t []) =
        .ok (some (os.getD t 0))) := by
  constructor
  · intro r
    rfl
  · intro hs os crcs t H20 Hbyte Hsort Hoslen Hos Hcrc HN ht hhead hz
    have := searchGitIndex_encode_found hs os crcs t H20 Hbyte Hsort Hoslen Hos Hcrc HN ht
    rwa [if_neg hz] at this

/-- C7 witness: the start computation for first byte 0 touches no
fan-out entry, and a hash with first byte 0 and offset 12 is found at
bucket index 0. -/
theorem idxFanoutStart_zero_bucket_witness :
    idxFanoutStart 0 ⟨[1, 2, 3], 5⟩ = .ok (0, ⟨[1, 2, 3], 5⟩) ∧
    searchGitIndex (encodeIndex [0 :: 1 :: List.replicate 18 0] [12] [0, 0, 0, 0])
      ([0 :: 1 :: List.replicate 18 0].getD 0 []) = .ok (some ([12].getD 0 0)) :=
  ⟨idxFanoutStart_zero_bucket.1 ⟨[1, 2, 3], 5⟩,
   idxFanoutStart_zero_bucket.2 [0 :: 1 :: List.replicate 18 0] [12] [0, 0, 0, 0] 0
     (by decide) (by decide) (by decide) (by decide) (by decide) (by decide) (by decide)
     (by decide) (by decide) (by decide)⟩

set_option maxRecDepth 8000 in
/-- C7 counterexample: an all-zero hash (first byte 0) present at bucket
index 0 but with stored pack offset 0.  The claim says such a hash is
found when present; the lookup reports NotFound because the offset value
0 is falsy. -/
theorem searchGitIndex_zero_bucket_zero_offset :
    (List.replicate 20 0 : Buf).headD 0 = 0 ∧
    searchGitIndex (encodeIndex [List.replicate 20 0] [0] [0, 0, 0, 0])
      (List.replicate 20 0) = .ok none := by
  constructor
  · rfl
  · rfl

/-! ## C6: parseVariableLengthQuantity, the packed-length decoder -/

/-- The byte-collection loop of parseVariableLengthQuantity: read bytes,
keeping the low 7 bits of each, until a byte with a clear high bit.  The
source's do/while loop reads at least one byte; at end of file the read
itself throws, so the fuel (number of remaining bytes + 1 at the call
sites) never runs out first. -/
def parseVLQChunks : Nat → Reader → Except String (List Nat × Reader)
  | 0, _ => .error "out of fuel"
  | fuel + 1, r =>
    match r.readUInt8 0 with
    | .error e => .error e
    | .ok (b, r₁) =>
      if b &&& 128 ≠ 0 then
        match parseVLQChunks fuel r₁ with
        | .error e => .error e
        | .ok (rest, r₂) => .ok ((b &&& 127) :: rest, r₂)
      else .ok ([b &&& 127], r₁)

/-- One step of the reduce in parseVariableLengthQuantity:
(accumulator + 1) << 7, bitwise-or the next chunk. -/
def vlqStep (a : Int) (b : Nat) : Int := Int.lor ((a + 1) <<< (7 : Int)) (b : Int)

/-- parseVariableLengthQuantity: collect the 7-bit chunks, then reduce
them with vlqStep starting from -1 (so the first chunk seeds the
low-order bits: ((-1 + 1) << 7) | c0 = c0). -/
def parseVariableLengthQuantity (fuel : Nat) (r : Reader) : Except String (Int × Reader) :=
  match parseVLQChunks fuel r with
  | .error e => .error e
  | .ok (chunks, r₁) => .ok (chunks.foldl vlqStep (-1), r₁)

theorem readUInt8_at (r : Reader) (rel : Int) (v target after : Nat)
    (htarget : (r.offset : Int) + rel = (target : Nat))
    (hafter : after = target + 1)
    (hx : extract r.file target 1 = [v]) :
    r.readUInt8 rel = .ok (v, ⟨r.file, after⟩) := by
  have hseek : r.seek rel = ⟨r.file, target⟩ := seek_at r rel target htarget
  unfold Reader.readUInt8
  rw [hseek]
  unfold Reader.read
  dsimp only
  rw [hx]
  rw [if_pos (show ([v] : Buf).length = 1 from rfl)]
  rw [hafter]
  rfl

theorem extract_head (pre : Buf) (x : Nat) (rest : Buf) :
    extract (pre ++ x :: rest) pre.length 1 = [x] := by
  rw [extract_append_right pre (x :: rest) pre.length 1 (le_refl _)]
  rw [Nat.sub_self]
  rfl

theorem parseVLQChunks_spec :
    ∀ (bs : List Nat) (pre post : Buf) (fuel : Nat),
      bs ≠ [] →
      (∀ i, i + 1 < bs.length → bs.getD i 0 &&& 128 ≠ 0) →
      bs.getD (bs.length - 1) 0 &&& 128 = 0 →
      bs.length ≤ fuel →
      parseVLQChunks fuel ⟨pre ++ bs ++ post, pre.length⟩ =
        .ok (bs.map (fun b => b &&& 127), ⟨pre ++ bs ++ post, pre.length + bs.length⟩) := by
  intro bs
  induction bs with
  | nil => intro pre post fuel hne; exact absurd rfl hne
  | cons b bs' ih =>
    intro pre post fuel _ hhigh hlast hfuel
    obtain ⟨f, rfl⟩ : ∃ f, fuel = f + 1 := ⟨fuel - 1, by simp at hfuel; omega⟩
    have hread : Reader.readUInt8 ⟨pre ++ (b :: bs') ++ post, pre.length⟩ 0 =
        .ok (b, ⟨pre ++ (b :: bs') ++ post, pre.length + 1⟩) := by
      refine readUInt8_at _ _ _ pre.length _ (by dsimp only; omega) rfl ?_
      dsimp only
      rw [show pre ++ (b :: bs') ++ post = pre ++ (b :: (bs' ++ post)) from by simp]
      exact extract_head pre b (bs' ++ post)
    simp only [parseVLQChunks]
    rw [hread]
    dsimp only
    cases bs' with
    | nil =>
      have hb : b &&& 128 = 0 := by simpa using hlast
      rw [if_neg (by simpa using hb)]
      simp
    | cons c cs =>
      have hb : b &&& 128 ≠ 0 := hhigh 0 (by simp only [List.length_cons]; omega)
      rw [if_pos hb]
      have hhigh' : ∀ i, i + 1 < (c :: cs).length → (c :: cs).getD i 0 &&& 128 ≠ 0 := by
        intro i hi
        have := hhigh (i + 1) (by simp only [List.length_cons] at hi ⊢; omega)
        rwa [List.getD_cons_succ] at this
      have hlast' : (c :: cs).getD ((c :: cs).length - 1) 0 &&& 128 = 0 := by
        simp only [List.length_cons, Nat.add_sub_cancel] at hlast ⊢
        rwa [List.getD_cons_succ] at hlast
      have hrec := ih (pre ++ [b]) post f (by simp) hhigh' hlast'
        (by simp only [List.length_cons] at hfuel ⊢; omega)
      rw [show pre ++ [b] ++ (c :: cs) ++ post = pre ++ (b :: c :: cs) ++ post from by simp,
        show (pre ++ [b]).length = pre.length + 1 from by simp] at hrec
      rw [hrec]
      dsimp only
      rw [show pre.length + 1 + (c :: cs).length = pre.length + (b :: c :: cs).length from by
        simp only [List.length_cons]; omega]
      rfl

/-- C6: on a byte sequence in which exactly the last byte has its high
bit clear, the packed-length decoder consumes exactly those bytes (the
reader advances past them and no further) and returns the left fold of
vlqStep over the bytes' low 7 bits starting from -1: the first byte
seeds the low-order bits and each later byte b contributes as
((acc + 1) << 7) | b, the +1-biased encoding distinct from the LEB
decoder readVariableLengthInt. -/
theorem parseVariableLengthQuantity_spec :
    ∀ (bs : List Nat) (pre post : Buf) (fuel : Nat),
      bs ≠ [] →
      (∀ i, i + 1 < bs.length → bs.getD i 0 &&& 128 ≠ 0) →
      bs.getD (bs.length - 1) 0 &&& 128 = 0 →
      bs.length ≤ fuel →
      parseVariableLengthQuantity fuel ⟨pre ++ bs ++ post, pre.length⟩ =
        .ok ((bs.map (fun b => b &&& 127)).foldl vlqStep (-1),
             ⟨pre ++ bs ++ post, pre.length + bs.length⟩) := by
  intro bs pre post fuel hne hhigh hlast hfuel
  unfold parseVariableLengthQuantity
  rw [parseVLQChunks_spec bs pre post fuel hne hhigh hlast hfuel]

/-- C6 witness: the two-byte sequence 0x82 0x01 decodes to
((0x02 + 1) << 7) | 1 = 385, consuming exactly both bytes and not the
trailing one; the LEB decoder readVariableLengthInt instead gives
2 | (1 << 7) = 130 on the same bytes. -/
theorem parseVariableLengthQuantity_spec_witness :
    parseVariableLengthQuantity 2 ⟨[130, 1, 99], 0⟩ =
      .ok (([130, 1].map (fun b => b &&& 127)).foldl vlqStep (-1), ⟨[130, 1, 99], 2⟩) ∧
    ([130, 1].map (fun b => b &&& 127)).foldl vlqStep (-1) = 385 ∧
    (readVariableLengthInt ⟨[130, 1, 99], some 0⟩).1 = 130 :=
  ⟨by
    have := parseVariableLengthQuantity_spec [130, 1] [] [99] 2
      (by decide)
      (by
        intro i hi
        have h0 : i = 0 := by simp only [List.length_cons, List.length_nil] at hi; omega
        subst h0
        decide)
      (by decide) (by decide)
    simpa using this,
   by decide, by decide⟩

/-! ## The pack object reader: readFromPack -/

/-- A resolved pack object: its reported type and its bytes. -/
structure ResolvedObject where
  type : String
  data : Buf
  deriving Repr, DecidableEq

/-- The types map keyed on header bits 6-5-4. -/
def typeOf (bits : Nat) : Option String :=
  if bits = 16 then some "commit"
  else if bits = 32 then some "tree"
  else if bits = 48 then some "blob"
  else if bits = 64 then some "tag"
  else if bits = 96 then some "ofs-delta"
  else if bits = 112 then some "ref-delta"
  else none

/-- The multibyte loop of readByteLength: keep pulling bytes, adding
their low 7 bits at increasing shifts (starting at 4), while the high
bit is set.  Reads past end of file throw, so fuel of file length + 1,
as supplied at the call site, never runs out first. -/
def readByteLengthLoop : Nat → Reader → Nat → Nat → Except String (Nat × Reader)
  | 0, _, _, _ => .error "out of fuel"
  | fuel + 1, r, acc, shift =>
    match r.readUInt8 0 with
    | .error e => .error e
    | .ok (byte, r₁) =>
      let acc₁ := acc ||| ((byte &&& 127) <<< shift)
      if byte &&& 128 ≠ 0 then readByteLengthLoop fuel r₁ acc₁ (shift + 7)
      else .ok (acc₁, r₁)

/-- readByteLength: bits 3-0 of the flags byte seed the low 4 bits; when
bit 7 of the flags is set, subsequent bytes contribute 7 bits each
starting at shift 4. -/
def readByteLength (r : Reader) (flags : Nat) : Except String (Nat × Reader) :=
  if flags &&& 128 ≠ 0 then readByteLengthLoop (r.file.length + 1) r (flags &&& 15) 4
  else .ok (flags &&& 15, r)

/-- The native zlib inflation, abstracted: given the pack bytes, the
position of the compressed payload and the exact output size, the
oracle returns the inflated bytes.  The actual transformation happens
inside the native binding, outside this repository's source; everything
the reader does with the result is independent of the oracle. -/
def InflateOracle := Buf → Nat → Nat → Buf

/-- The ofs-delta arm of readFromPack: decode the relative offset with
the packed-length quantity, recurse at offset - rel (a negative result
would make readSync throw), and take the base's type and bytes. -/
def packStepOfs (recurse : Nat → Except String ResolvedObject) (pack : Buf) (offset : Nat)
    (ty : String) (r : Reader) : Except String (String × Option Buf × Reader) :=
  if ty = "ofs-delta" then
    match parseVariableLengthQuantity (pack.length + 1) r with
    | .error e => .error e
    | .ok (rel, r₂) =>
      if (offset : Int) - rel < 0 then .error "out of range"
      else
        match recurse ((offset : Int) - rel).toNat with
        | .error e => .error e
        | .ok base => .ok (base.type, some base.data, r₂)
  else .ok (ty, none, r)

/-- The ref-delta arm of readFromPack: peek the 20-byte base oid, look
it up in the same index (a null result behaves as offset 0, since JS
null coerces to 0 in the seek addition), recurse there, and take the
base's type and bytes. -/
def packStepRef (recurse : Nat → Except String ResolvedObject) (idx : Buf)
    (ty : String) (base? : Option Buf) (r : Reader) :
    Except String (String × Option Buf × Reader) :=
  if ty = "ref-delta" then
    match searchGitIndex idx (r.peek 20) with
    | .error e => .error e
    | .ok off? =>
      match recurse (off?.getD 0) with
      | .error e => .error e
      | .ok base => .ok (base.type, some base.data, r.seek 20)
  else .ok (ty, base?, r)

/-- readFromPack: read the header byte at the given pack offset, decode
the type bits (unknown values throw) and the inflated byte length,
resolve an ofs-delta or ref-delta base recursively, inflate the payload
and, for delta objects, apply the delta to the base.  The fuel bounds
the recursion depth, standing for the JS call stack; a delta whose fill
loop diverges (see C8) is surfaced as an error to keep the model total. -/
def readFromPack (inflate : InflateOracle) :
    Nat → Buf → Buf → Nat → Except String ResolvedObject
  | 0, _, _, _ => .error "Maximum call stack size exceeded"
  | fuel + 1, pack, idx, offset =>
    match ((Reader.mk pack 0).seek (offset : Int)).readUInt8 0 with
    | .error e => .error e
    | .ok (flags, r₀) =>
      match typeOf (flags &&& 112) with
      | none => .error "Unsupported type"
      | some ty =>
        match readByteLength r₀ flags with
        | .error e => .error e
        | .ok (byteLength, r₁) =>
          match packStepOfs (readFromPack inflate fuel pack idx) pack offset ty r₁ with
          | .error e => .error e
          | .ok (ty₁, base₁, r₂) =>
            match packStepRef (readFromPack inflate fuel pack idx) idx ty₁ base₁ r₂ with
            | .error e => .error e
            | .ok (ty₂, base₂, r₄) =>
              let object := inflate pack r₄.offset byteLength
              match base₂ with
              | some b =>
                match applyOffsetDelta (object.length + 2) object b with
                | some data => .ok ⟨ty₂, data⟩
                | none => .error "delta application does not terminate"
              | none => .ok ⟨ty₂, object⟩

/-- The base-object pack offset a delta header designates, recomputed
from the pack and index exactly as readFromPack does on its way to the
recursive call: for an ofs-delta, the object's offset minus the
packed-length relative offset following the header's length bytes (none
when the difference is negative, where readSync would throw); for a
ref-delta, the index lookup of the 20-byte base oid after the header's
length bytes, a null result coercing to offset 0; none for non-delta
headers and for headers that cannot be read. -/
def packBaseOffset (pack idx : Buf) (offset : Nat) : Option Nat :=
  match ((Reader.mk pack 0).seek (offset : Int)).readUInt8 0 with
  | .error _ => none
  | .ok (flags, r₀) =>
    match typeOf (flags &&& 112) with
    | none => none
    | some ty =>
      match readByteLength r₀ flags with
      | .error _ => none
      | .ok (_, r₁) =>
        if ty = "ofs-delta" then
          match parseVariableLengthQuantity (pack.length + 1) r₁ with
          | .error _ => none
          | .ok (rel, _) =>
            if (offset : Int) - rel < 0 then none
            else some ((offset : Int) - rel).toNat
        else if ty = "ref-delta" then
          match searchGitIndex idx (r₁.peek 20) with
          | .error _ => none
          | .ok off? => some (off?.getD 0)
        else none

/-- A concrete inflate oracle for closed test inputs: the payload is
taken to be stored uncompressed, so inflation returns the next outSize
bytes of the file. -/
def idInflate : InflateOracle := fun file pos outSize => extract file pos outSize

example : readFromPack idInflate 1 [19, 99, 111, 109] [] 0 =
    .ok ⟨"commit", [99, 111, 109]⟩ := by rfl

example : readFromPack idInflate 2 [17, 97, 99, 2, 1, 1, 128] [] 2 =
    .ok ⟨"commit", [97]⟩ := by rfl

example : readFromPack idInflate 5 [17, 97, 99, 2, 1, 1, 128] [] 2 =
    .ok ⟨"commit", [97]⟩ := by rfl

/-! ## C4: the reported type is always a resolved non-delta type -/

theorem length_one_eq (l : Buf) (h : l.length = 1) : l = [l.getD 0 0] := by
  match l, h with
  | [a], _ => rfl

theorem readUInt8_ok_extract (r : Reader) (rel : Int) (v : Nat) (r' : Reader)
    (h : r.readUInt8 rel = .ok (v, r')) :
    extract r.file ((r.offset : Int) + rel).toNat 1 = [v] := by
  unfold Reader.readUInt8 Reader.seek Reader.read at h
  dsimp only at h
  split at h
  · rename_i hlen
    simp only [Except.ok.injEq, Prod.mk.injEq] at h
    obtain ⟨h1, _⟩ := h
    rw [length_one_eq _ hlen, h1]
  · exact absurd h (by simp)

theorem typeOf_cases (bits : Nat) (ty : String) (h : typeOf bits = some ty) :
    ty = "commit" ∨ ty = "tree" ∨ ty = "blob" ∨ ty = "tag" ∨
    ty = "ofs-delta" ∨ ty = "ref-delta" := by
  unfold typeOf at h
  split_ifs at h
  all_goals first
    | exact Option.noConfusion h
    | (injection h with h2; subst h2; tauto)

theorem packStepOfs_ok (recurse : Nat → Except String ResolvedObject) (pack : Buf)
    (offset : Nat) (ty : String) (r : Reader) (ty₁ : String) (b₁ : Option Buf)
    (r₂ : Reader) (h : packStepOfs recurse pack offset ty r = .ok (ty₁, b₁, r₂)) :
    (ty ≠ "ofs-delta" ∧ ty₁ = ty ∧ b₁ = none ∧ r₂ = r) ∨
    (ty = "ofs-delta" ∧ ∃ rel r',
      parseVariableLengthQuantity (pack.length + 1) r = .ok (rel, r') ∧
      ¬((offset : Int) - rel < 0) ∧
      ∃ base, recurse (((offset : Int) - rel).toNat) = .ok base ∧
        ty₁ = base.type ∧ b₁ = some base.data) := by
  unfold packStepOfs at h
  by_cases hofs : ty = "ofs-delta"
  · rw [if_pos hofs] at h
    right
    refine ⟨hofs, ?_⟩
    cases hvlq : parseVariableLengthQuantity (pack.length + 1) r with
    | error e => rw [hvlq] at h; simp at h
    | ok p =>
      obtain ⟨rel, r₂'⟩ := p
      rw [hvlq] at h
      dsimp only at h
      split at h
      · simp at h
      · rename_i hneg
        cases hrec : recurse ((offset : Int) - rel).toNat with
        | error e => rw [hrec] at h; simp at h
        | ok base =>
          rw [hrec] at h
          dsimp only at h
          simp only [Except.ok.injEq, Prod.mk.injEq] at h
          obtain ⟨h1, h2, _⟩ := h
          exact ⟨rel, r₂', rfl, hneg, base, hrec, h1.symm, h2.symm⟩
  · rw [if_neg hofs] at h
    left
    simp only [Except.ok.injEq, Prod.mk.injEq] at h
    obtain ⟨h1, h2, h3⟩ := h
    exact ⟨hofs, h1.symm, h2.symm, h3.symm⟩

theorem packStepRef_ok (recurse : Nat → Except String ResolvedObject) (idx : Buf)
    (ty : String) (base? : Option Buf) (r : Reader) (ty₂ : String) (b₂ : Option Buf)
    (r₄ : Reader) (h : packStepRef recurse idx ty base? r = .ok (ty₂, b₂, r₄)) :
    (ty ≠ "ref-delta" ∧ ty₂ = ty ∧ b₂ = base? ∧ r₄ = r) ∨
    (ty = "ref-delta" ∧ ∃ off?, searchGitIndex idx (r.peek 20) = .ok off? ∧
      ∃ base, recurse (off?.getD 0) = .ok base ∧
        ty₂ = base.type ∧ b₂ = some base.data) := by
  unfold packStepRef at h
  by_cases href : ty = "ref-delta"
  · rw [if_pos href] at h
    right
    refine ⟨href, ?_⟩
    cases hsearch : searchGitIndex idx (r.peek 20) with
    | error e => rw [hsearch] at h; simp at h
    | ok off? =>
      rw [hsearch] at h
      dsimp only at h
      cases hrec : recurse (off?.getD 0) with
      | error e => rw [hrec] at h; simp at h
      | ok base =>
        rw [hrec] at h
        dsimp only at h
        simp only [Except.ok.injEq, Prod.mk.injEq] at h
        obtain ⟨h1, h2, _⟩ := h
        exact ⟨off?, rfl, base, hrec, h1.symm, h2.symm⟩
  · rw [if_neg href] at h
    left
    simp only [Except.ok.injEq, Prod.mk.injEq] at h
    obtain ⟨h1, h2, h3⟩ := h
    exact ⟨href, h1.symm, h2.symm, h3.symm⟩

/-- C4: whenever readFromPack returns, the reported object type is one
of the four non-delta types, never ofs-delta or ref-delta.  Moreover,
for a delta object: the header byte carrying delta type bits guarantees
the code-computed base offset (packBaseOffset, the exact offset the
recursive call uses) exists, and reading the base at that very offset —
with strictly less recursion fuel — succeeds with an object whose
reported type both equals the delta's reported type and is itself a
non-delta type; chained deltas therefore inherit the type of the
transitively resolved base by unrolling this at each link. -/
theorem readFromPack_resolved_type :
    ∀ (inflate : InflateOracle) (fuel : Nat) (pack idx : Buf) (offset : Nat)
      (r : ResolvedObject),
      readFromPack inflate fuel pack idx offset = .ok r →
      (r.type = "commit" ∨ r.type = "tree" ∨ r.type = "blob" ∨ r.type = "tag") ∧
      (∀ flags : Nat, extract pack offset 1 = [flags] →
        flags &&& 112 = 96 ∨ flags &&& 112 = 112 →
        ∃ baseOffset, packBaseOffset pack idx offset = some baseOffset) ∧
      (∀ baseOffset : Nat, packBaseOffset pack idx offset = some baseOffset →
        ∃ fuel', fuel' < fuel ∧ ∃ base,
          readFromPack inflate fuel' pack idx baseOffset = .ok base ∧
          r.type = base.type ∧
          (base.type = "commit" ∨ base.type = "tree" ∨ base.type = "blob" ∨
            base.type = "tag")) := by
  intro inflate fuel
  induction fuel with
  | zero => intro pack idx offset r h; simp [readFromPack] at h
  | succ n ih =>
    intro pack idx offset r h
    simp only [readFromPack] at h
    have hseek0 : ((Reader.mk pack 0).seek ((offset : Nat) : Int)) = ⟨pack, offset⟩ :=
      seek_at _ _ offset (by dsimp only; omega)
    rw [hseek0] at h
    cases hflags : Reader.readUInt8 ⟨pack, offset⟩ 0 with
    | error e => rw [hflags] at h; simp at h
    | ok p =>
      obtain ⟨flags, r₀⟩ := p
      rw [hflags] at h
      dsimp only at h
      have hextract : extract pack offset 1 = [flags] := by
        have := readUInt8_ok_extract ⟨pack, offset⟩ 0 flags r₀ hflags
        simpa using this
      cases hty : typeOf (flags &&& 112) with
      | none => rw [hty] at h; simp at h
      | some ty =>
        rw [hty] at h
        dsimp only at h
        cases hlen : readByteLength r₀ flags with
        | error e => rw [hlen] at h; simp at h
        | ok q =>
          obtain ⟨byteLength, r₁⟩ := q
          rw [hlen] at h
          dsimp only at h
          cases hstep1 : packStepOfs (readFromPack inflate n pack idx) pack offset ty r₁ with
          | error e => rw [hstep1] at h; simp at h
          | ok s1 =>
            obtain ⟨ty₁, base₁, r₂⟩ := s1
            rw [hstep1] at h
            dsimp only at h
            cases hstep2 : packStepRef (readFromPack inflate n pack idx) idx ty₁ base₁ r₂ with
            | error e => rw [hstep2] at h; simp at h
            | ok s2 =>
              obtain ⟨ty₂, base₂, r₄⟩ := s2
              rw [hstep2] at h
              dsimp only at h
              have hrty : r.type = ty₂ := by
                cases base₂ with
                | none =>
                  dsimp only at h
                  simp only [Except.ok.injEq] at h
                  rw [← h]
                | some b =>
                  dsimp only at h
                  cases happly : applyOffsetDelta
                      ((inflate pack r₄.offset byteLength).length + 2)
                      (inflate pack r₄.offset byteLength) b with
                  | none => rw [happly] at h; simp at h
                  | some data =>
                    rw [happly] at h
                    simp only [Except.ok.injEq] at h
                    rw [← h]
              rcases packStepOfs_ok _ _ _ _ _ _ _ _ hstep1 with
                ⟨hne1, hty1, _, hr21⟩ |
                ⟨hofs, rel, r', hvlq, hnneg, base, hrec, hty1, _⟩
              · rcases packStepRef_ok _ _ _ _ _ _ _ _ hstep2 with
                  ⟨hne2, hty2, _, _⟩ | ⟨href, off?, hsearch, base2, hrec2, hty2, _⟩
                · -- plain literal object: ty is one of the four base types
                  have hsix := typeOf_cases _ _ hty
                  have hneref : ty ≠ "ref-delta" := fun hh => hne2 (hty1.trans hh)
                  have hfour : ty = "commit" ∨ ty = "tree" ∨ ty = "blob" ∨ ty = "tag" := by
                    rcases hsix with h6 | h6 | h6 | h6 | h6 | h6
                    · tauto
                    · tauto
                    · tauto
                    · tauto
                    · exact absurd h6 hne1
                    · exact absurd h6 hneref
                  have hpbo : packBaseOffset pack idx offset = none := by
                    unfold packBaseOffset
                    rw [hseek0, hflags]
                    dsimp only
                    rw [hty]
                    dsimp only
                    rw [hlen]
                    dsimp only
                    rw [if_neg hne1, if_neg hneref]
                  refine ⟨?_, ?_, ?_⟩
                  · rw [hrty, hty2, hty1]
                    exact hfour
                  · intro flags' hx hbits
                    have hflagsEq : flags' = flags := by
                      rw [hextract] at hx
                      injection hx.symm
                    subst hflagsEq
                    rcases hbits with h96 | h112
                    · rw [h96] at hty
                      have : ty = "ofs-delta" := by
                        injection hty with h2
                        exact h2.symm
                      exact absurd this hne1
                    · rw [h112] at hty
                      have : ty = "ref-delta" := by
                        injection hty with h2
                        exact h2.symm
                      exact absurd this hneref
                  · intro baseOffset hbo
                    rw [hpbo] at hbo
                    exact Option.noConfusion hbo
                · -- ref-delta object: the base offset is the index lookup result
                  have hbase4 := (ih pack idx (off?.getD 0) base2 hrec2).1
                  have htyref : ty = "ref-delta" := hty1.symm.trans href
                  have hpbo : packBaseOffset pack idx offset = some (off?.getD 0) := by
                    unfold packBaseOffset
                    rw [hseek0, hflags]
                    dsimp only
                    rw [hty]
                    dsimp only
                    rw [hlen]
                    dsimp only
                    rw [if_neg hne1, if_pos htyref]
                    rw [hr21] at hsearch
                    rw [hsearch]
                  refine ⟨?_, ?_, ?_⟩
                  · rw [hrty, hty2]
                    exact hbase4
                  · intro flags' _ _
                    exact ⟨off?.getD 0, hpbo⟩
                  · intro baseOffset hbo
                    rw [hpbo] at hbo
                    injection hbo with hbo'
                    subst hbo'
                    exact ⟨n, Nat.lt_succ_self n, base2, hrec2,
                      by rw [hrty, hty2], hbase4⟩
              · -- ofs-delta object: the base offset is offset - rel
                have hbase4 := (ih pack idx (((offset : Int) - rel).toNat) base hrec).1
                rcases packStepRef_ok _ _ _ _ _ _ _ _ hstep2 with
                  ⟨_, hty2, _, _⟩ | ⟨href, _⟩
                · have hpbo : packBaseOffset pack idx offset =
                      some (((offset : Int) - rel).toNat) := by
                    unfold packBaseOffset
                    rw [hseek0, hflags]
                    dsimp only
                    rw [hty]
                    dsimp only
                    rw [hlen]
                    dsimp only
                    rw [if_pos hofs, hvlq]
                    dsimp only
                    rw [if_neg hnneg]
                  refine ⟨?_, ?_, ?_⟩
                  · rw [hrty, hty2, hty1]
                    exact hbase4
                  · intro flags' _ _
                    exact ⟨((offset : Int) - rel).toNat, hpbo⟩
                  · intro baseOffset hbo
                    rw [hpbo] at hbo
                    injection hbo with hbo'
                    subst hbo'
                    exact ⟨n, Nat.lt_succ_self n, base, hrec,
                      by rw [hrty, hty2, hty1], hbase4⟩
                · -- the resolved ofs base cannot itself be reported as ref-delta
                  exfalso
                  rw [hty1] at href
                  rcases hbase4 with h4 | h4 | h4 | h4 <;> rw [h4] at href <;> simp at href

/-- C4 witness: a two-object pack (a commit literal at offset 0 and an
ofs-delta against it at offset 2) resolves the delta to type commit; the
delta type bits in the header byte 99 force a base offset, that offset
is computed as 0, and re-reading the pack at offset 0 with one unit less
fuel yields a base of that same non-delta type. -/
theorem readFromPack_resolved_type_witness :
    ((ResolvedObject.mk "commit" [97]).type = "commit" ∨
     (ResolvedObject.mk "commit" [97]).type = "tree" ∨
     (ResolvedObject.mk "commit" [97]).type = "blob" ∨
     (ResolvedObject.mk "commit" [97]).type = "tag") ∧
    (∃ baseOffset, packBaseOffset [17, 97, 99, 2, 1, 1, 128] [] 2 = some baseOffset) ∧
    (∃ fuel', fuel' < 2 ∧ ∃ base,
      readFromPack idInflate fuel' [17, 97, 99, 2, 1, 1, 128] [] 0 = .ok base ∧
      (ResolvedObject.mk "commit" [97]).type = base.type ∧
      (base.type = "commit" ∨ base.type = "tree" ∨ base.type = "blob" ∨
        base.type = "tag")) :=
  ⟨(readFromPack_resolved_type idInflate 2 [17, 97, 99, 2, 1, 1, 128] [] 2
      ⟨"commit", [97]⟩ (by rfl)).1,
   (readFromPack_resolved_type idInflate 2 [17, 97, 99, 2, 1, 1, 128] [] 2
      ⟨"commit", [97]⟩ (by rfl)).2.1 99 (by decide) (by decide),
   (readFromPack_resolved_type idInflate 2 [17, 97, 99, 2, 1, 1, 128] [] 2
      ⟨"commit", [97]⟩ (by rfl)).2.2 0 (by rfl)⟩

/-! ## C2: the directory scan of getCommitFromPackFile -/

/-- One directory entry of the pack directory, together with the file
contents behind its paths: idx holds the .idx file's bytes (none means
openSync throws, e.g. an unreadable file) and pack the companion .pack
file's bytes at the same base name. -/
structure DirEntry where
  name : String
  isDirectory : Bool
  idx : Option Buf
  pack : Option Buf
  deriving Repr, DecidableEq

/-- The suffix test dirent.name.endsWith(".idx"), computed over the
name's characters. -/
def endsWithIdx (s : String) : Bool := s.data.drop (s.data.length - 4) == ".idx".data

/-- The while loop of getCommitFromPackFile over the directory entries.
Non-.idx entries and directories are skipped; a NotFound (null) from
searchGitIndex continues with the remaining entries; every thrown error
(unreadable index, wrong-format signature, pack read failure)
propagates out of the loop, because the inner try block has only a
finally, no catch. -/
def scanEntries (inflate : InflateOracle) (fuel : Nat) (oid : Buf) :
    List DirEntry → Except String (Option Buf)
  | [] => .ok none
  | e :: rest =>
    if e.isDirectory || !(endsWithIdx e.name) then scanEntries inflate fuel oid rest
    else
      match e.idx with
      | none => .error "EACCES: open failed"
      | some idxFile =>
        match searchGitIndex idxFile oid with
        | .error err => .error err
        | .ok none => scanEntries inflate fuel oid rest
        | .ok (some off) =>
          match e.pack with
          | none => .error "ENOENT: open failed"
          | some packFile =>
            match readFromPack inflate fuel packFile idxFile off with
            | .error err => .error err
            | .ok robj => .ok (some robj.data)

/-- getCommitFromPackFile: run the directory scan; the catch wrapping
the whole loop turns any propagated error into null. -/
def getCommitFromPackFile (inflate : InflateOracle) (fuel : Nat)
    (entries : List DirEntry) (oid : Buf) : Option Buf :=
  match scanEntries inflate fuel oid entries with
  | .ok v => v
  | .error _ => none

/-- C2 (amended): an unreadable or wrong-format candidate index file is
NOT skipped.  The exception escapes the entry's try block (which has
only a finally) to the catch wrapping the whole directory loop, so the
entire lookup returns null immediately — the remaining index files are
never examined, and an object present in a later pack is not found. -/
theorem getCommitFromPackFile_bad_idx_aborts :
    ∀ (inflate : InflateOracle) (fuel : Nat) (oid : Buf) (e : DirEntry)
      (rest : List DirEntry),
      e.isDirectory = false →
      endsWithIdx e.name = true →
      (e.idx = none ∨ ∃ f err, e.idx = some f ∧ searchGitIndex f oid = .error err) →
      getCommitFromPackFile inflate fuel (e :: rest) oid = none := by
  intro inflate fuel oid e rest hdir hsuffix hbad
  rcases hbad with hnone | ⟨f, err, hsome, herr⟩
  · simp [getCommitFromPackFile, scanEntries, hdir, hsuffix, hnone]
  · simp [getCommitFromPackFile, scanEntries, hdir, hsuffix, hsome, herr]

/-- The oid used by the concrete C2 inputs. -/
def exOid : Buf := 1 :: List.replicate 19 0

/-- A well-formed index holding exOid at pack offset 12. -/
def exGoodIdx : Buf := encodeIndex [1 :: List.replicate 19 0] [12] [0, 0, 0, 0]

/-- A pack whose object at offset 12 is a stored commit with body 97. -/
def exGoodPack : Buf := List.replicate 12 0 ++ [17, 97]

/-- A candidate whose index file has a wrong-format signature. -/
def exBadEntry : DirEntry := ⟨"corrupt.idx", false, some (List.replicate 8 0), none⟩

/-- A candidate pair that contains exOid. -/
def exGoodEntry : DirEntry := ⟨"objects.idx", false, some exGoodIdx, some exGoodPack⟩

set_option maxRecDepth 8000 in
/-- C2 counterexample: with a wrong-format index first in the directory
and a good pack containing the object after it, the lookup returns null;
dropping the bad entry, the same scan finds the object.  The claim says
the bad pair is skipped and the object in the later pack is still
found; the code aborts instead. -/
theorem getCommitFromPackFile_no_skip :
    getCommitFromPackFile idInflate 1 [exBadEntry, exGoodEntry] exOid = none ∧
    getCommitFromPackFile idInflate 1 [exGoodEntry] exOid = some [97] := by
  constructor
  · rfl
  · rfl

/-- C2 witness for the amended theorem: the wrong-format first entry
makes the whole lookup return null for every list of remaining
entries — here one containing the object. -/
theorem getCommitFromPackFile_bad_idx_aborts_witness :
    getCommitFromPackFile idInflate 3 [exBadEntry, exGoodEntry] exOid = none :=
  getCommitFromPackFile_bad_idx_aborts idInflate 3 exOid exBadEntry [exGoodEntry]
    rfl (by decide)
    (Or.inr ⟨List.replicate 8 0, "unsupported IDX file", rfl, by rfl⟩)

/-! ## C10: the Inflater's resource contract -/

/-- The Inflater's state: the native zlib handle, present from
construction until close releases it.  What the handle points to is
native memory; only its presence drives the wrapper's control flow. -/
structure Inflater where
  zlib : Option Unit
  deriving Repr, DecidableEq

/-- A freshly constructed Inflater: the constructor creates and
initializes the native binding. -/
def Inflater.new : Inflater := ⟨some ()⟩

/-- Inflater.inflate: throws when the handle has been released
(if (!this.zlib) throw new Error("Inflater has been closed")), else
drives the native writeSync loop whose inflated output is the given
data (the transformation itself is native code, outside this source). -/
def Inflater.inflate (s : Inflater) (data : Buf) : Except String Buf :=
  match s.zlib with
  | none => .error "Inflater has been closed"
  | some _ => .ok data

/-- Inflater.close: if the handle is present, close it natively and
null the field; otherwise do nothing.  The second component counts the
native close calls performed. -/
def Inflater.close (s : Inflater) : Inflater × Nat :=
  match s.zlib with
  | some _ => (⟨none⟩, 1)
  | none => (s, 0)

/-- Call close n times, summing the native close calls performed. -/
def closeTimes : Nat → Inflater → Inflater × Nat
  | 0, s => (s, 0)
  | n + 1, s => ((closeTimes n s.close.1).1, s.close.2 + (closeTimes n s.close.1).2)

/-- C10: calling inflate after close fails with the closed error;
inflate on an instance that has not been closed succeeds rather than
raising that error; and however many times close is repeated, a fresh
instance's native resource is released exactly once. -/
theorem inflater_closed_contract :
    (∀ (s : Inflater) (d : Buf),
      (s.close.1).inflate d = .error "Inflater has been closed") ∧
    (∀ (s : Inflater) (u : Unit) (d : Buf), s.zlib = some u → s.inflate d = .ok d) ∧
    (∀ n : Nat, (closeTimes (n + 1) Inflater.new).2 = 1) := by
  refine ⟨?_, ?_, ?_⟩
  · intro s d
    obtain ⟨z⟩ := s
    cases z <;> rfl
  · intro s u d h
    unfold Inflater.inflate
    rw [h]
  · intro n
    have hclosed : ∀ m, closeTimes m ⟨none⟩ = (⟨none⟩, 0) := by
      intro m
      induction m with
      | zero => rfl
      | succ k ih => simp [closeTimes, Inflater.close, ih]
    simp [closeTimes, Inflater.new, Inflater.close, hclosed n]

/-- C10 witness: a fresh instance inflates successfully; all other
conjuncts are quantified without extra hypotheses. -/
theorem inflater_closed_contract_witness :
    (Inflater.new).inflate [5] = .ok [5] :=
  inflater_closed_contract.2.1 Inflater.new () [5] rfl

end SyncGit
